import Mathlib

/-!
# Verification of the coffee-order interpreter

Shallow embedding of the `messageParser` and `orderCalculator` services of the
coffee-demo bot (`src/bot.ts`).  Modelling conventions:

* JS strings are `List Char`; JS `toLowerCase`/`trim`/whitespace are modelled on
  the ASCII range actually used by the program.
* JS numbers are `ℚ` (exact arithmetic standing in for IEEE doubles; every
  constant of the program is a small decimal fraction, represented exactly).
* `Math.round` is `round : ℚ → ℤ`, i.e. `⌊x + 1/2⌋`, which agrees with JS
  `Math.round` on every input (both round halves toward `+∞`).
* `Date.now()` is an explicit `now : ℕ` argument (milliseconds).

The `Rat` arithmetic operations are restored to `semireducible` so that closed
facts about concrete orders can be checked by `decide`.
-/

set_option allowUnsafeReducibility true in
attribute [semireducible] Rat.mul Rat.add Rat.sub Rat.inv Rat.ofScientific

set_option maxRecDepth 100000

namespace Coffee

/-! ## String primitives (JS built-ins used by the parser) -/

/-- JS `String.prototype.toLowerCase` (ASCII range, which covers all program data). -/
def toLowerStr (l : List Char) : List Char := l.map Char.toLower

/-- JS `String.prototype.trim`: remove whitespace from both ends. -/
def trim (l : List Char) : List Char :=
  ((l.dropWhile Char.isWhitespace).reverse.dropWhile Char.isWhitespace).reverse

/-- JS `String.prototype.includes`: `jsIncludes hay needle` is true iff `needle`
occurs contiguously inside `hay` (scan every suffix for a prefix match). -/
def jsIncludes : List Char → List Char → Bool
  | [], needle => needle.isPrefixOf []
  | hay@(_ :: t), needle => needle.isPrefixOf hay || jsIncludes t needle

/-- JS `String.prototype.slice(-n)`: the last `min n length` characters. -/
def lastN (n : Nat) (l : List Char) : List Char := l.drop (l.length - n)

/-- Numeric value of a digit string, as read by JS `parseInt` on a `\d+` match. -/
def digitsToNat (l : List Char) : Nat := l.foldl (fun a c => a * 10 + (c.toNat - 48)) 0

/-- The decimal digit character for `d < 10`. -/
def digitChar (d : Nat) : Char := Char.ofNat (48 + d)

/-- Decimal rendering of a natural number, as produced by JS
`Number.prototype.toString` for integers. -/
def decDigits (n : Nat) : List Char :=
  if _h : n < 10 then [digitChar n] else decDigits (n / 10) ++ [digitChar (n % 10)]
termination_by n
decreasing_by exact Nat.div_lt_self (by omega) (by omega)

/-- One step of JS `String.prototype.split(/\s+/)`: `inRun` records whether the
scanner is inside a maximal whitespace run, `cur` the (reversed) pending token. -/
def splitWsGo : Bool → List Char → List Char → List (List Char)
  | _, cur, [] => [cur.reverse]
  | inRun, cur, c :: cs =>
    if c.isWhitespace then
      if inRun then splitWsGo true cur cs
      else cur.reverse :: splitWsGo true [] cs
    else splitWsGo false (c :: cur) cs

/-- JS `text.split(/\s+/)` (used by `parseOrderItem` to tokenize on whitespace). -/
def splitWs (l : List Char) : List (List Char) := splitWsGo false [] l

/-- Worker for JS `String.prototype.split(sep)` with a non-empty string
separator: scan left to right, cutting at each separator occurrence.  The

fuel argument (an upper bound on the remaining length) makes the recursion
structural; `jsSplit` instantiates it with the input length. -/
def jsSplitGo (sep : List Char) : Nat → List Char → List Char → List (List Char)
  | _, cur, [] => [cur.reverse]
  | 0, cur, rest => [cur.reverse ++ rest]
  | fuel + 1, cur, rest@(c :: cs) =>
    if sep.isPrefixOf rest then cur.reverse :: jsSplitGo sep fuel [] (rest.drop sep.length)
    else jsSplitGo sep fuel (c :: cur) cs

/-- JS `String.prototype.split` with a string separator. -/
def jsSplit (sep l : List Char) : List (List Char) := jsSplitGo sep l.length [] l

example : splitWs (("a  bc ").data) = [("a").data, ("bc").data, []] := by decide
example : splitWs [] = [[]] := by decide
example : splitWs ((" ").data) = [[], []] := by decide
example : jsSplit ((",").data) (("a,,b ,c").data) =
    [("a").data, [], ("b ").data, ("c").data] := by decide
example : jsIncludes (("hello").data) (("ell").data) = true := by decide
example : jsIncludes (("hello").data) [] = true := by decide
example : trim ((" a b ").data) = ("a b").data := by decide
example : lastN 6 (("1700000012345").data) = ("012345").data := by decide
example : digitsToNat (("042").data) = 42 := by decide
example : decDigits 1700001000000 = ("1700001000000").data := by
  simp [decDigits]
  decide

/-! ## Similarity scorer (`messageParser.calculateSimilarity`, source lines 176-217)

The source fills a `(|a|+1) × (|b|+1)` dynamic-programming matrix row by row
(`matrix[i][j]` = edit distance between the first `i` chars of `a` and the
first `j` chars of `b`) and reads off `matrix[|a|][|b|]`.  `levRowAux`/`levRows`
embed that fill loop; `levRec` is the plain recursive Levenshtein distance used
on the specification side. -/

/-- Classic Levenshtein distance, unit cost for insertion, deletion and
substitution (head recursion). -/
def levRec : List Char → List Char → Nat
  | [], ys => ys.length
  | _ :: xs, [] => xs.length + 1
  | x :: xs, y :: ys =>
    min (levRec xs (y :: ys) + 1)
      (min (levRec (x :: xs) ys + 1) (levRec xs ys + if x = y then 0 else 1))
termination_by a b => a.length + b.length

/-- Inner loop of the DP fill (source lines 202-211): `prev` is the slice of the
previous row starting at the diagonal cell, `left` the cell just written in the
current row.  Each new cell is
`min (up + 1) (min (left + 1) (diag + cost))`, matching
`Math.min(matrix[i-1][j]+1, matrix[i][j-1]+1, matrix[i-1][j-1]+cost)`. -/
def levRowAux (c : Char) : List Char → List Nat → Nat → List Nat
  | [], _, _ => []
  | _ :: _, [], _ => []
  | _ :: _, [_], _ => []
  | y :: ys, pdiag :: pup :: prest, left =>
    let cur := min (pup + 1) (min (left + 1) (pdiag + if c = y then 0 else 1))
    cur :: levRowAux c ys (pup :: prest) cur

/-- Row `i` of the DP matrix: the border cell `matrix[i][0] = i` followed by the
filled cells. -/
def levRow (c : Char) (b : List Char) (prev : List Nat) (i : Nat) : List Nat :=
  i :: levRowAux c b prev i

/-- Outer loop of the DP fill: one row per character of `a` (source lines
202-211), starting from the border row `[0, 1, …, |b|]`. -/
def levRows : List Char → List Char → Nat → List Nat → List Nat
  | [], _, _, prev => prev
  | c :: cs, b, i, prev => levRows cs b (i + 1) (levRow c b prev i)

/-- The DP distance `matrix[a.length][b.length]` (source lines 189-215). -/
def levDistance (a b : List Char) : Nat :=
  (levRows a b 1 (List.range (b.length + 1))).getLastD 0

/-- `messageParser.calculateSimilarity` (source lines 176-217): lowercase both
strings, `1` on equality, `0.9` when either contains the other
(`a.includes(b) || b.includes(a)`), otherwise `1 - distance / maxLength` with
the DP edit distance. -/
def calculateSimilarity (str1 str2 : List Char) : ℚ :=
  let a := toLowerStr str1
  let b := toLowerStr str2
  if a = b then 1
  else if jsIncludes a b || jsIncludes b a then 0.9
  else
    let maxLength := max a.length b.length
    1 - (levDistance a b : ℚ) / (maxLength : ℚ)

/-- Reference similarity from the specification (§4.1): case-insensitive; equal
strings score `1`; substring containment scores `0.9`; otherwise
`1 - levenshtein(a,b) / max(len a, len b)` with the classic recursive
Levenshtein distance. -/
def similaritySpec (str1 str2 : List Char) : ℚ :=
  let a := toLowerStr str1
  let b := toLowerStr str2
  if a = b then 1
  else if jsIncludes a b || jsIncludes b a then 0.9
  else 1 - (levRec a b : ℚ) / (max a.length b.length : ℚ)

example : levDistance (("kitten").data) (("sitting").data) = 3 := by decide
example : levDistance (("large").data) (("latte").data) = 2 := by decide
example : calculateSimilarity (("Cap").data) (("cappuccino").data) = 0.9 := by decide
example : calculateSimilarity (("large").data) (("latte").data) = 1 - 2/5 := by decide
example : calculateSimilarity (("latte").data) (("latte").data) = 1 := by decide

/-! ## Data model (`src/types.ts` and the inline menu data, source lines 109-167) -/

/-- A size or milk modifier: display name and signed price delta. -/
structure Modifier where
  name : List Char
  priceModifier : ℚ
deriving DecidableEq

/-- A menu entry (`MenuItem` in `types.ts`, plus the `aliases` field the bot's
inline menu objects carry). -/
structure MenuItem where
  id : List Char
  name : List Char
  basePrice : ℚ
  sizes : List Modifier
  milkOptions : List Modifier
  aliases : List (List Char)
deriving DecidableEq

/-- `messageParser.menuItems['cappuccino']` (source lines 110-125). -/
def cappuccino : MenuItem :=
  { id := ("cap1").data
    name := ("Cappuccino").data
    basePrice := 3.50
    sizes := [⟨("Small").data, -0.50⟩, ⟨("Medium").data, 0⟩, ⟨("Large").data, 0.50⟩]
    milkOptions := [⟨("Whole Milk").data, 0⟩, ⟨("Oat Milk").data, 0.50⟩,
      ⟨("Almond Milk").data, 0.50⟩]
    aliases := [("cap").data, ("capp").data, ("cappucino").data, ("capuccino").data] }

/-- `messageParser.menuItems['latte']` (source lines 126-141). -/
def latte : MenuItem :=
  { id := ("lat1").data
    name := ("Latte").data
    basePrice := 4.00
    sizes := [⟨("Small").data, -0.50⟩, ⟨("Medium").data, 0⟩, ⟨("Large").data, 0.50⟩]
    milkOptions := [⟨("Whole Milk").data, 0⟩, ⟨("Oat Milk").data, 0.50⟩,
      ⟨("Almond Milk").data, 0.50⟩]
    aliases := [("lat").data, ("cafe latte").data, ("coffee latte").data] }

/-- `messageParser.menuItems` as an association list in declaration order
(`Object.entries` iterates string keys in insertion order). -/
def menuItems : List (List Char × MenuItem) :=
  [(("cappuccino").data, cappuccino), (("latte").data, latte)]

/-- `messageParser.sizes` (source lines 144-154), declaration order. -/
def sizes : List (List Char × Modifier) :=
  [(("small").data, ⟨("Small").data, -0.50⟩),
   (("medium").data, ⟨("Medium").data, 0⟩),
   (("large").data, ⟨("Large").data, 0.50⟩),
   (("s").data, ⟨("Small").data, -0.50⟩),
   (("m").data, ⟨("Medium").data, 0⟩),
   (("l").data, ⟨("Large").data, 0.50⟩),
   (("regular").data, ⟨("Medium").data, 0⟩),
   (("big").data, ⟨("Large").data, 0.50⟩),
   (("standard").data, ⟨("Medium").data, 0⟩)]

/-- `messageParser.milkTypes` (source lines 156-167), declaration order. -/
def milkTypes : List (List Char × Modifier) :=
  [(("whole milk").data, ⟨("Whole Milk").data, 0⟩),
   (("oat milk").data, ⟨("Oat Milk").data, 0.50⟩),
   (("almond milk").data, ⟨("Almond Milk").data, 0.50⟩),
   (("whole").data, ⟨("Whole Milk").data, 0⟩),
   (("oat").data, ⟨("Oat Milk").data, 0.50⟩),
   (("almond").data, ⟨("Almond Milk").data, 0.50⟩),
   (("regular milk").data, ⟨("Whole Milk").data, 0⟩),
   (("regular").data, ⟨("Whole Milk").data, 0⟩),
   (("normal milk").data, ⟨("Whole Milk").data, 0⟩),
   (("normal").data, ⟨("Whole Milk").data, 0⟩)]

/-! ## Lexicon matcher (`messageParser.findBestMatch`, source lines 226-251)

The JS function is duck-typed over dictionaries whose values may or may not
carry an `aliases` array (`if (item.aliases)`); the embedding takes the alias
accessor `al` as a parameter, `fun _ => []` for the size/milk dictionaries. -/

/-- One strict-improvement comparison of the loop body: candidate string `s`
scored against the running `(bestMatch, bestScore)` state; the recorded tuple
always names the entry's `key`/`item` (source lines 230-247). -/
def entryStep (key : List Char) (item : α) (term : List Char)
    (st : Option (List Char × α × ℚ) × ℚ) (s : List Char) :
    Option (List Char × α × ℚ) × ℚ :=
  let score := calculateSimilarity term s
  if st.2 < score then (some (key, item, score), score) else st

/-- The dictionary loop of `findBestMatch`: for each entry, score its key and
then each alias against the running best (strict improvements only). -/
def findBestMatchGo (al : α → List (List Char)) (term : List Char) :
    List (List Char × α) → Option (List Char × α × ℚ) → ℚ →
      Option (List Char × α × ℚ)
  | [], best, _ => best
  | (key, item) :: rest, best, bestScore =>
    let st := (key :: al item).foldl (entryStep key item term) (best, bestScore)
    findBestMatchGo al term rest st.1 st.2

/-- `messageParser.findBestMatch` (source lines 226-251); the default threshold
is `0.7` as in the source. -/
def findBestMatch (al : α → List (List Char)) (term : List Char)
    (dictionary : List (List Char × α)) (threshold : ℚ := 0.7) :
    Option (List Char × α × ℚ) :=
  findBestMatchGo al term dictionary none threshold

/-- Specification-side score of one dictionary entry (§4.2): the maximum of
`similarity(term, key)` and `similarity(term, alias)` over the entry's
aliases. -/
def entryScore (al : α → List (List Char)) (term key : List Char) (item : α) : ℚ :=
  (al item).foldl (fun m s => max m (calculateSimilarity term s))
    (calculateSimilarity term key)

/-- Specification-side lexicon matcher (§4.2): score every entry, track the
best score across the dictionary, return the first entry attaining it when it
strictly exceeds the threshold, and `none` otherwise. -/
def specFindBestMatch (al : α → List (List Char)) (term : List Char)
    (dictionary : List (List Char × α)) (threshold : ℚ) :
    Option (List Char × α × ℚ) :=
  let scored := dictionary.map fun e => (e.1, e.2, entryScore al term e.1 e.2)
  let best := scored.foldl (fun m e => max m e.2.2) threshold
  if threshold < best then scored.find? fun e => decide (e.2.2 = best) else none

example :
    (findBestMatch MenuItem.aliases (("cap").data) menuItems).map
        (fun r => (r.2.1.name, r.2.2)) =
      some ((("Cappuccino").data), 1) := by decide
example : findBestMatch (fun _ => []) (("xyz").data) sizes = none := by decide
example :
    (findBestMatch (fun _ => []) (("latte").data) sizes).map
        (fun r => (r.1, r.2.2)) =
      some ((("l").data), 0.9) := by decide

/-! ## Order text splitter (`messageParser.splitOrderItems`, source lines 258-276) -/

/-- The separator list `[',', ' and ', ';', '+']` (source line 260). -/
def separators : List (List Char) :=
  [(",").data, (" and ").data, (";").data, ("+").data]

/-- One pass of the splitter loop: an item containing the separator is split,
each piece trimmed, empty pieces dropped; an item not containing it is passed
through unchanged (source lines 263-273). -/
def splitPass (sep : List Char) (items : List (List Char)) : List (List Char) :=
  items.flatMap fun item =>
    if jsIncludes item sep then
      ((jsSplit sep item).map trim).filter (fun s => !s.isEmpty)
    else [item]

/-- `messageParser.splitOrderItems` (source lines 258-276): apply one pass per
separator, starting from the one-element list `[text]`. -/
def splitOrderItems (text : List Char) : List (List Char) :=
  separators.foldl (fun items sep => splitPass sep items) [text]

/-! ## Item interpreter (`messageParser.parseOrderItem`, source lines 283-380) -/

/-- An interpreted line item (`OrderItem` in `types.ts`): the resolved menu
entry, quantity, chosen size and milk names, and the line total. -/
structure OrderItem where
  menuItem : MenuItem
  quantity : Nat
  size : List Char
  milkType : List Char
  itemTotal : ℚ
deriving DecidableEq

/-- Result shape of `parseOrderItem`: `{ success, item?, error? }`. -/
structure ParseItemResult where
  success : Bool
  item : Option OrderItem := none
  error : Option (List Char) := none
deriving DecidableEq

/-- The item-not-found message (source line 321), listing the canonical menu
names joined by `', '`. -/
def itemNotFoundMsg : List Char :=
  ("Menu item not found. Available items: ").data ++
    List.intercalate ((", ").data) (menuItems.map fun e => e.2.name)

/-- The default size `messageParser.sizes['medium']` (source line 326). -/
def defaultSize : Modifier := ⟨("Medium").data, 0⟩

/-- The default milk entry `messageParser.milkTypes['whole milk']` (source line
336).  The key is kept alongside the value because the source later compares
`milkType === messageParser.milkTypes['whole milk']` by object identity, and
within the fixed dictionary object identity coincides with key identity. -/
def defaultMilkEntry : List Char × Modifier :=
  (("whole milk").data, ⟨("Whole Milk").data, 0⟩)

/-- The token loop of menu resolution (source lines 296-306): scan whitespace
tokens, skip those shorter than 3 characters, and take the first fuzzy match
against the menu dictionary. -/
def menuTokenMatch (words : List (List Char)) : Option MenuItem :=
  words.findSome? fun w =>
    if w.length < 3 then none
    else (findBestMatch MenuItem.aliases w menuItems).map
      fun (r : List Char × MenuItem × ℚ) => r.2.1

/-- The whole-text containment fallback of menu resolution (source lines
309-316): first menu key contained in the lowercased text. -/
def menuFallback (lowerText : List Char) : Option MenuItem :=
  menuItems.findSome? fun (e : List Char × MenuItem) =>
    if jsIncludes lowerText e.1 then some e.2 else none

/-- Menu resolution (source lines 294-316): token match, then fallback. -/
def menuLookup (lowerText : List Char) (words : List (List Char)) : Option MenuItem :=
  match menuTokenMatch words with
  | some mi => some mi
  | none => menuFallback lowerText

/-- Size resolution (source lines 325-333): first token with a fuzzy match in
the size dictionary, defaulting to medium. -/
def sizeLookup (words : List (List Char)) : Modifier :=
  ((words.findSome? fun w => findBestMatch (fun _ => []) w sizes).map
    fun (r : List Char × Modifier × ℚ) => r.2.1).getD defaultSize

/-- Milk phrase containment (source lines 339-344): first milk key contained
in the lowercased text, defaulting to the whole-milk entry. -/
def milkPhrase (lowerText : List Char) : List Char × Modifier :=
  (milkTypes.find? fun (e : List Char × Modifier) =>
    jsIncludes lowerText e.1).getD defaultMilkEntry

/-- Milk resolution (source lines 336-355).  The guard
`milkType === messageParser.milkTypes['whole milk']` is reference equality on
objects of the fixed dictionary, which coincides with equality of the selected
key; only when the selection is still the `'whole milk'` entry does the
token-wise fuzzy loop run. -/
def milkLookup (lowerText : List Char) (words : List (List Char)) :
    List Char × Modifier :=
  let milk0 := milkPhrase lowerText
  if milk0.1 = defaultMilkEntry.1 then
    ((words.findSome? fun w => findBestMatch (fun _ => []) w milkTypes).map
      fun (r : List Char × Modifier × ℚ) => (r.1, r.2.1)).getD milk0
  else milk0

/-- `messageParser.parseOrderItem` (source lines 283-380): leading-digit
quantity (default 1), token-wise fuzzy menu lookup skipping tokens shorter
than 3 with a whole-text containment fallback, token-wise fuzzy size lookup
defaulting to medium, phrase-containment milk lookup with a token-wise fuzzy
fallback defaulting to whole milk, and line total
`(base + size delta + milk delta) * quantity`.  The `try/catch` wrapper is
omitted: no operation in the body can throw. -/
def parseOrderItem (text : List Char) : ParseItemResult :=
  let lowerText := toLowerStr text
  let digits := lowerText.takeWhile Char.isDigit
  let quantity := if digits = [] then 1 else digitsToNat digits
  let words := splitWs lowerText
  match menuLookup lowerText words with
  | none => { success := false, error := some itemNotFoundMsg }
  | some menuItem =>
    let size := sizeLookup words
    let milk := milkLookup lowerText words
    let itemTotal := menuItem.basePrice + size.priceModifier + milk.2.priceModifier
    { success := true
      item := some
        { menuItem := menuItem
          quantity := quantity
          size := size.name
          milkType := milk.2.name
          itemTotal := itemTotal * (quantity : ℚ) } }

/-! ## Order parser (`messageParser.parseOrder`, source lines 387-437) -/

/-- Result shape of `parseOrder` (`ParsedOrder` in `types.ts`). -/
structure ParsedOrder where
  success : Bool
  items : Option (List OrderItem) := none
  error : Option (List Char) := none
deriving DecidableEq

/-- `messageParser.parseOrder` (source lines 387-437): split the text, fail
with the specify-one-item message on zero substrings, interpret each substring,
collect successes and error strings, fail with the joined errors (or a generic
fallback) when nothing succeeded, and otherwise succeed with the collected
items.  Logging and the unreachable `try/catch` are omitted. -/
def parseOrder (text : List Char) : ParsedOrder :=
  let orderItemTexts := splitOrderItems text
  if orderItemTexts.isEmpty then
    { success := false
      error := some (("Please specify at least one item to order.").data) }
  else
    let results := orderItemTexts.map parseOrderItem
    let orderItems := results.filterMap fun r => if r.success then r.item else none
    let errors := results.filterMap fun r =>
      if r.success && r.item.isSome then none else r.error
    if orderItems.isEmpty then
      { success := false
        error := some
          (if errors.isEmpty then
            ("Failed to parse your order. Please try again with a simpler format.").data
          else ("Failed to parse order: ").data ++ List.intercalate (("; ").data) errors) }
    else { success := true, items := some orderItems }

/-! ## Order calculator (`orderCalculator`, source lines 441-524) -/

/-- `orderCalculator.roundCurrency` (source lines 443-446):
`Math.round(amount * 100) / 100`.  Mathlib's `round` is `⌊x + 1/2⌋`, exactly
JS `Math.round` (both send halves toward `+∞`). -/
def roundCurrency (amount : ℚ) : ℚ := (round (amount * 100) : ℚ) / 100

/-- `orderCalculator.calculateTax` (source lines 453-456): 8.5 % of the
subtotal, rounded to cents. -/
def calculateTax (subtotal : ℚ) : ℚ := roundCurrency (subtotal * 0.085)

/-- `orderCalculator.generateOrderId` (source lines 458-463):
`ORD-` + last six characters of `Date.now().toString()` + `-` + last three
characters of the customer id.  The clock is an explicit argument. -/
def generateOrderId (now : Nat) (customerId : List Char) : List Char :=
  ("ORD-").data ++ lastN 6 (decDigits now) ++ ("-").data ++ lastN 3 customerId

/-- `orderCalculator.calculateReadyTime` (source lines 465-475): the ready
instant is `now + 10` minutes.  The locale-dependent 12-hour rendering of that
instant is presentation-layer formatting outside every claim, so the model
keeps the instant itself (milliseconds). -/
def calculateReadyTime (now : Nat) : Nat := now + 10 * 60000

/-- The customer data `createOrder` consumes. -/
structure Customer where
  id : List Char
  name : List Char
deriving DecidableEq

/-- The assembled order (`Order` in `types.ts`); `estimatedReady` is the ready
instant (see `calculateReadyTime`). -/
structure Order where
  id : List Char
  customerId : List Char
  customerName : List Char
  items : List OrderItem
  subtotal : ℚ
  tax : ℚ
  total : ℚ
  estimatedReady : Nat
deriving DecidableEq

/-- `orderCalculator.createOrder` (source lines 478-524): subtotal as the
left-to-right running sum of item totals with every partial sum re-rounded to
cents, tax via `calculateTax`, total re-rounded, order id and ready time from
the clock. -/
def createOrder (now : Nat) (items : List OrderItem) (customer : Customer) : Order :=
  let subtotal := items.foldl (fun total item => roundCurrency (total + item.itemTotal)) 0
  let tax := calculateTax subtotal
  let total := roundCurrency (subtotal + tax)
  { id := generateOrderId now customer.id
    customerId := customer.id
    customerName := customer.name
    items := items
    subtotal := subtotal
    tax := tax
    total := total
    estimatedReady := calculateReadyTime now }

example :
    (parseOrderItem (("1 large cappuccino with oat milk").data)).item =
      some
        { menuItem := cappuccino
          quantity := 1
          size := ("Large").data
          milkType := ("Oat Milk").data
          itemTotal := 9/2 } := by decide

example :
    (parseOrderItem (("1 latte").data)).item =
      some
        { menuItem := latte
          quantity := 1
          size := ("Large").data
          milkType := ("Whole Milk").data
          itemTotal := 9/2 } := by decide

example :
    (parseOrderItem (("0 latte").data)).item.map (fun i => i.quantity) = some 0 := by
  decide

example :
    parseOrder (("1 espresso").data) =
      { success := false
        error := some
          (("Failed to parse order: Menu item not found. Available items: Cappuccino, Latte").data) } := by
  decide

example :
    parseOrder [] =
      { success := false
        error := some
          (("Failed to parse order: Menu item not found. Available items: Cappuccino, Latte").data) } := by
  decide

example : splitOrderItems ((" ").data) = [(" ").data] := by decide
example : splitOrderItems ((",").data) = [] := by decide
example :
    splitOrderItems (("2 medium lattes, 1 small cappuccino").data) =
      [("2 medium lattes").data, ("1 small cappuccino").data] := by decide

/-! ## Levenshtein lemmas -/

theorem levRec_nil (ys : List Char) : levRec [] ys = ys.length := by
  rw [levRec]

theorem levRec_cons_nil (x : Char) (xs : List Char) :
    levRec (x :: xs) [] = xs.length + 1 := by
  rw [levRec]

theorem levRec_cons_cons (x y : Char) (xs ys : List Char) :
    levRec (x :: xs) (y :: ys) =
      min (levRec xs (y :: ys) + 1)
        (min (levRec (x :: xs) ys + 1) (levRec xs ys + if x = y then 0 else 1)) := by
  rw [levRec]

theorem levRec_nil_right (xs : List Char) : levRec xs [] = xs.length := by
  cases xs with
  | nil => rw [levRec_nil]
  | cons x xs => rw [levRec_cons_nil, List.length_cons]

/-- The matrix recurrence: appending one character to each string satisfies the
same three-way minimum as prepending (the recurrence the DP fill uses on
prefixes). -/
theorem levRec_snoc (x y : Char) (u v : List Char) :
    levRec (u ++ [x]) (v ++ [y]) =
      min (levRec u (v ++ [y]) + 1)
        (min (levRec (u ++ [x]) v + 1) (levRec u v + if x = y then 0 else 1)) := by
  suffices H : ∀ n (u v : List Char), u.length + v.length = n →
      levRec (u ++ [x]) (v ++ [y]) =
        min (levRec u (v ++ [y]) + 1)
          (min (levRec (u ++ [x]) v + 1) (levRec u v + if x = y then 0 else 1)) by
    exact H _ u v rfl
  intro n
  induction n using Nat.strong_induction_on with
  | _ n ih =>
    intro u v hn
    have cost_le : ∀ a b : Char, (if a = b then 0 else 1) ≤ 1 := by
      intro a b; by_cases h : a = b <;> simp [h]
    rcases u with _ | ⟨p, ps⟩ <;> rcases v with _ | ⟨w, ws⟩
    · simp only [List.nil_append]
      rw [levRec_cons_cons]
    · simp only [List.length_nil, List.length_cons] at hn
      have I1 := ih (0 + ws.length) (by omega) [] ws (by simp)
      simp only [List.nil_append, List.cons_append] at I1 ⊢
      rw [levRec_cons_cons x w [] (ws ++ [y]), levRec_cons_cons x w [] ws, I1]
      simp only [levRec_nil, List.length_append, List.length_cons, List.length_nil]
      have h1 := cost_le x w
      have h2 := cost_le x y
      omega
    · simp only [List.length_nil, List.length_cons] at hn
      have I1 := ih (ps.length + 0) (by omega) ps [] (by simp)
      simp only [List.nil_append, List.cons_append] at I1 ⊢
      rw [levRec_cons_cons p y (ps ++ [x]) [], levRec_cons_cons p y ps [], I1]
      simp only [levRec_nil_right, levRec_cons_nil, levRec_nil,
        List.length_append, List.length_cons, List.length_nil]
      have h1 := cost_le p y
      have h2 := cost_le x y
      omega
    · simp only [List.length_cons] at hn
      have I1 := ih (ps.length + (ws.length + 1)) (by omega) ps (w :: ws) (by simp)
      have I2 := ih ((ps.length + 1) + ws.length) (by omega) (p :: ps) ws (by simp)
      have I3 := ih (ps.length + ws.length) (by omega) ps ws rfl
      simp only [List.cons_append] at I1 I2 I3 ⊢
      rw [levRec_cons_cons p w (ps ++ [x]) (ws ++ [y]),
        levRec_cons_cons p w ps (ws ++ [y]),
        levRec_cons_cons p w (ps ++ [x]) ws,
        levRec_cons_cons p w ps ws, I1, I2, I3]
      simp only [← min_add_add_right]
      ac_rfl

/-- Levenshtein distance is invariant under reversing both strings. -/
theorem levRec_reverse (u v : List Char) :
    levRec u.reverse v.reverse = levRec u v := by
  suffices H : ∀ n (u v : List Char), u.length + v.length = n →
      levRec u.reverse v.reverse = levRec u v by exact H _ u v rfl
  intro n
  induction n using Nat.strong_induction_on with
  | _ n ih =>
    intro u v hn
    rcases u with _ | ⟨x, xs⟩
    · simp [levRec_nil]
    · rcases v with _ | ⟨y, ys⟩
      · simp [levRec_nil_right]
      · simp only [List.length_cons] at hn
        have I1 := ih (xs.length + (ys.length + 1)) (by omega) xs (y :: ys) (by simp)
        have I2 := ih ((xs.length + 1) + ys.length) (by omega) (x :: xs) ys (by simp)
        have I3 := ih (xs.length + ys.length) (by omega) xs ys rfl
        rw [List.reverse_cons, List.reverse_cons, levRec_snoc, levRec_cons_cons,
          ← List.reverse_cons x xs, ← List.reverse_cons y ys, I1, I2, I3]

/-- Levenshtein distance is symmetric. -/
theorem levRec_comm (u v : List Char) : levRec u v = levRec v u := by
  suffices H : ∀ n (u v : List Char), u.length + v.length = n →
      levRec u v = levRec v u by exact H _ u v rfl
  intro n
  induction n using Nat.strong_induction_on with
  | _ n ih =>
    intro u v hn
    rcases u with _ | ⟨x, xs⟩
    · rw [levRec_nil, levRec_nil_right]
    · rcases v with _ | ⟨y, ys⟩
      · rw [levRec_nil, levRec_nil_right]
      · simp only [List.length_cons] at hn
        have I1 := ih (xs.length + (ys.length + 1)) (by omega) xs (y :: ys) (by simp)
        have I2 := ih ((xs.length + 1) + ys.length) (by omega) (x :: xs) ys (by simp)
        have I3 := ih (xs.length + ys.length) (by omega) xs ys rfl
        rw [levRec_cons_cons x y xs ys, levRec_cons_cons y x ys xs, I1, I2, I3]
        have hc : (if x = y then 0 else 1 : Nat) = (if y = x then 0 else 1) := by
          by_cases h : x = y
          · rw [if_pos h, if_pos h.symm]
          · rw [if_neg h, if_neg (mt Eq.symm h)]
        rw [hc]
        ac_rfl

/-- Levenshtein distance never exceeds the longer length. -/
theorem levRec_le_max (u v : List Char) :
    levRec u v ≤ max u.length v.length := by
  suffices H : ∀ n (u v : List Char), u.length + v.length = n →
      levRec u v ≤ max u.length v.length by exact H _ u v rfl
  intro n
  induction n using Nat.strong_induction_on with
  | _ n ih =>
    intro u v hn
    rcases u with _ | ⟨x, xs⟩
    · simp [levRec_nil]
    · rcases v with _ | ⟨y, ys⟩
      · simp [levRec_nil_right]
      · simp only [List.length_cons] at hn
        have I3 := ih (xs.length + ys.length) (by omega) xs ys rfl
        rw [levRec_cons_cons]
        have hc : (if x = y then 0 else 1) ≤ 1 := by
          by_cases h : x = y <;> simp [h]
        simp only [List.length_cons]
        omega

/-- Expected entries of one DP row past the border cell: `u` is the reversed
processed prefix of `a`, `w` the reversed prefix of `b` consumed so far. -/
def expRowAux (u : List Char) : List Char → List Char → List Nat
  | _, [] => []
  | w, y :: ys => levRec u (y :: w) :: expRowAux u (y :: w) ys

theorem levRowAux_eq (c : Char) (u : List Char) :
    ∀ (bs w : List Char),
      levRowAux c bs (levRec u w :: expRowAux u w bs) (levRec (c :: u) w) =
        expRowAux (c :: u) w bs := by
  intro bs
  induction bs with
  | nil => intro w; rfl
  | cons y ys ih =>
    intro w
    show min (levRec u (y :: w) + 1)
          (min (levRec (c :: u) w + 1) (levRec u w + if c = y then 0 else 1)) ::
        levRowAux c ys (levRec u (y :: w) :: expRowAux u (y :: w) ys)
          (min (levRec u (y :: w) + 1)
            (min (levRec (c :: u) w + 1) (levRec u w + if c = y then 0 else 1))) =
      levRec (c :: u) (y :: w) :: expRowAux (c :: u) (y :: w) ys
    rw [← levRec_cons_cons c y u w]
    rw [ih (y :: w)]

theorem levRows_eq (b : List Char) :
    ∀ (as u : List Char),
      levRows as b (levRec u [] + 1) (levRec u [] :: expRowAux u [] b) =
        levRec (as.reverse ++ u) [] :: expRowAux (as.reverse ++ u) [] b := by
  intro as
  induction as with
  | nil => intro u; simp [levRows]
  | cons c cs ih =>
    intro u
    show levRows cs b (levRec u [] + 1 + 1)
        ((levRec u [] + 1) ::
          levRowAux c b (levRec u [] :: expRowAux u [] b) (levRec u [] + 1)) = _
    have h1 : levRec u [] + 1 = levRec (c :: u) [] := by
      rw [levRec_cons_nil, levRec_nil_right]
    rw [h1, levRowAux_eq c u b [], ih (c :: u)]
    simp only [List.reverse_cons, List.append_assoc, List.singleton_append]

theorem expRowAux_nil_eq (bs : List Char) :
    ∀ w : List Char, expRowAux [] w bs = List.range' (w.length + 1) bs.length := by
  induction bs with
  | nil => intro w; rfl
  | cons y ys ih =>
    intro w
    show levRec [] (y :: w) :: expRowAux [] (y :: w) ys = _
    rw [levRec_nil, ih (y :: w)]
    simp [List.range'_succ, List.length_cons]

theorem getLastD_expRowAux (u : List Char) :
    ∀ (bs w : List Char) (d : Nat),
      (levRec u w :: expRowAux u w bs).getLastD d = levRec u (bs.reverse ++ w) := by
  intro bs
  induction bs with
  | nil => intro w d; rfl
  | cons y ys ih =>
    intro w d
    show (levRec u w :: levRec u (y :: w) :: expRowAux u (y :: w) ys).getLastD d = _
    rw [List.getLastD_cons, ih (y :: w) (levRec u w)]
    simp only [List.reverse_cons, List.append_assoc, List.singleton_append]

/-- The DP fill of `calculateSimilarity` computes exactly the recursive
Levenshtein distance. -/
theorem levDistance_eq_levRec (a b : List Char) : levDistance a b = levRec a b := by
  rw [levDistance]
  have hrow : List.range (b.length + 1) = levRec [] [] :: expRowAux [] [] b := by
    rw [List.range_eq_range', expRowAux_nil_eq b [], levRec_nil]
    simp [List.range'_succ]
  rw [hrow]
  rw [show (1 : Nat) = levRec ([] : List Char) [] + 1 by simp [levRec_nil]]
  rw [levRows_eq b a []]
  rw [getLastD_expRowAux]
  rw [List.append_nil, List.append_nil, levRec_reverse]

/-! ## Similarity scorer lemmas -/

theorem jsIncludes_nil (hay : List Char) : jsIncludes hay [] = true := by
  cases hay <;> rfl

theorem calculateSimilarity_eq_spec (a b : List Char) :
    calculateSimilarity a b = similaritySpec a b := by
  simp only [calculateSimilarity, similaritySpec, levDistance_eq_levRec, Nat.cast_max]

theorem calculateSimilarity_nonneg (a b : List Char) :
    0 ≤ calculateSimilarity a b := by
  simp only [calculateSimilarity]
  split_ifs with h1 h2
  · norm_num
  · norm_num
  · have hb : toLowerStr b ≠ [] := by
      intro he
      rw [he] at h2
      simp [jsIncludes_nil] at h2
    have hm : 0 < max (toLowerStr a).length (toLowerStr b).length := by
      have := List.length_pos.mpr hb
      omega
    have hd : levDistance (toLowerStr a) (toLowerStr b) ≤
        max (toLowerStr a).length (toLowerStr b).length := by
      rw [levDistance_eq_levRec]
      exact levRec_le_max _ _
    have hq : ((levDistance (toLowerStr a) (toLowerStr b) : ℚ)) /
        ((max (toLowerStr a).length (toLowerStr b).length : ℕ) : ℚ) ≤ 1 := by
      rw [div_le_one (by exact_mod_cast hm)]
      exact_mod_cast hd
    linarith

theorem calculateSimilarity_le_one (a b : List Char) :
    calculateSimilarity a b ≤ 1 := by
  simp only [calculateSimilarity]
  split_ifs with h1 h2
  · norm_num
  · norm_num
  · have ht : (0 : ℚ) ≤ ((levDistance (toLowerStr a) (toLowerStr b) : ℚ)) /
        ((max (toLowerStr a).length (toLowerStr b).length : ℕ) : ℚ) := by
      positivity
    linarith

theorem calculateSimilarity_self (s : List Char) : calculateSimilarity s s = 1 := by
  simp [calculateSimilarity]

theorem calculateSimilarity_comm (a b : List Char) :
    calculateSimilarity a b = calculateSimilarity b a := by
  simp only [calculateSimilarity]
  by_cases h1 : toLowerStr a = toLowerStr b
  · rw [if_pos h1, if_pos h1.symm]
  · rw [if_neg h1, if_neg (mt Eq.symm h1), Bool.or_comm]
    by_cases h2 : (jsIncludes (toLowerStr b) (toLowerStr a) ||
        jsIncludes (toLowerStr a) (toLowerStr b)) = true
    · rw [if_pos h2, if_pos h2]
    · rw [if_neg h2, if_neg h2, levDistance_eq_levRec, levDistance_eq_levRec,
        levRec_comm, Nat.max_comm]

/-- **C5.** For all strings `a` and `b`, `calculateSimilarity a b` equals the
reference definition (after lowercasing: `1` on equality, `0.9` when one
string contains the other, otherwise `1 − levenshtein(a,b)/max(len a, len b)`
with unit-cost insertion, deletion and substitution); consequently the result
lies in `[0,1]`, `calculateSimilarity s s = 1` for every `s`, and
`calculateSimilarity a b = calculateSimilarity b a`. -/
theorem claim5 :
    (∀ a b : List Char, calculateSimilarity a b = similaritySpec a b) ∧
    (∀ a b : List Char, 0 ≤ calculateSimilarity a b ∧ calculateSimilarity a b ≤ 1) ∧
    (∀ s : List Char, calculateSimilarity s s = 1) ∧
    (∀ a b : List Char, calculateSimilarity a b = calculateSimilarity b a) :=
  ⟨calculateSimilarity_eq_spec,
    fun a b => ⟨calculateSimilarity_nonneg a b, calculateSimilarity_le_one a b⟩,
    calculateSimilarity_self,
    calculateSimilarity_comm⟩

/-! ## Lexicon matcher lemmas -/

theorem le_foldl_max (l : List ℚ) : ∀ a : ℚ, a ≤ l.foldl max a := by
  induction l with
  | nil => intro a; exact le_refl a
  | cons x xs ih => intro a; exact le_trans (le_max_left a x) (ih (max a x))

theorem foldl_max_assoc (l : List ℚ) :
    ∀ a b : ℚ, l.foldl max (max a b) = max a (l.foldl max b) := by
  induction l with
  | nil => intro a b; rfl
  | cons x xs ih =>
    intro a b
    show xs.foldl max (max (max a b) x) = max a (xs.foldl max (max b x))
    rw [max_assoc, ih]

theorem entryFold_eq (key : List Char) (item : α) (term : List Char) :
    ∀ (strs : List (List Char)) (best : Option (List Char × α × ℚ)) (bs : ℚ),
      strs.foldl (entryStep key item term) (best, bs) =
        if bs < (strs.map (calculateSimilarity term)).foldl max bs then
          (some (key, item, (strs.map (calculateSimilarity term)).foldl max bs),
            (strs.map (calculateSimilarity term)).foldl max bs)
        else (best, bs) := by
  intro strs
  induction strs with
  | nil =>
    intro best bs
    simp [lt_irrefl]
  | cons s ss ih =>
    intro best bs
    show ss.foldl (entryStep key item term) (entryStep key item term (best, bs) s) = _
    simp only [List.map_cons, List.foldl_cons]
    by_cases h : bs < calculateSimilarity term s
    · rw [show entryStep key item term (best, bs) s =
          (some (key, item, calculateSimilarity term s), calculateSimilarity term s) by
        simp [entryStep, h]]
      rw [ih, max_eq_right h.le]
      have hle : calculateSimilarity term s ≤
          (ss.map (calculateSimilarity term)).foldl max (calculateSimilarity term s) :=
        le_foldl_max _ _
      by_cases h2 : calculateSimilarity term s <
          (ss.map (calculateSimilarity term)).foldl max (calculateSimilarity term s)
      · rw [if_pos h2, if_pos (lt_of_lt_of_le h hle)]
      · have he : (ss.map (calculateSimilarity term)).foldl max
            (calculateSimilarity term s) = calculateSimilarity term s :=
          le_antisymm (not_lt.mp h2) hle
        rw [if_neg h2, he, if_pos h]
    · rw [show entryStep key item term (best, bs) s = (best, bs) by
        simp [entryStep, h]]
      rw [ih, max_eq_left (not_lt.mp h)]

/-- The per-dictionary maximum tracked by the matcher: the fold of `max` over
all entry scores, seeded with the running best score. -/
def dictMax (al : α → List (List Char)) (term : List Char)
    (dict : List (List Char × α)) (bs : ℚ) : ℚ :=
  (dict.map fun e => entryScore al term e.1 e.2).foldl max bs

theorem dictMax_nil (al : α → List (List Char)) (term : List Char) (bs : ℚ) :
    dictMax al term [] bs = bs := rfl

theorem le_dictMax (al : α → List (List Char)) (term : List Char)
    (dict : List (List Char × α)) (bs : ℚ) : bs ≤ dictMax al term dict bs :=
  le_foldl_max _ _

theorem findBestMatchGo_eq (al : α → List (List Char)) (term : List Char) :
    ∀ (dict : List (List Char × α)) (best : Option (List Char × α × ℚ)) (bs : ℚ),
      findBestMatchGo al term dict best bs =
        if bs < dictMax al term dict bs then
          (dict.find? fun e =>
              decide (entryScore al term e.1 e.2 = dictMax al term dict bs)).map
            fun e => (e.1, e.2, dictMax al term dict bs)
        else best := by
  intro dict
  induction dict with
  | nil =>
    intro best bs
    simp [findBestMatchGo, dictMax, lt_irrefl]
  | cons e rest ih =>
    rcases e with ⟨key, item⟩
    intro best bs
    show findBestMatchGo al term rest
        ((key :: al item).foldl (entryStep key item term) (best, bs)).1
        ((key :: al item).foldl (entryStep key item term) (best, bs)).2 = _
    have hscore : ((key :: al item).map (calculateSimilarity term)).foldl max bs =
        max bs (entryScore al term key item) := by
      show ((al item).map (calculateSimilarity term)).foldl max
          (max bs (calculateSimilarity term key)) = _
      rw [foldl_max_assoc]
      congr 1
      rw [List.foldl_map]
      rfl
    have hM : dictMax al term ((key, item) :: rest) bs =
        dictMax al term rest (max bs (entryScore al term key item)) := rfl
    rw [entryFold_eq key item term (key :: al item) best bs, hscore]
    by_cases hE : bs < entryScore al term key item
    · rw [if_pos (lt_max_iff.mpr (Or.inr hE)), max_eq_right hE.le]
      rw [ih (some (key, item, entryScore al term key item)) (entryScore al term key item)]
      have hMr : dictMax al term ((key, item) :: rest) bs =
          dictMax al term rest (entryScore al term key item) := by
        rw [hM, max_eq_right hE.le]
      have hbsM : bs < dictMax al term ((key, item) :: rest) bs :=
        lt_of_lt_of_le hE (hMr ▸ le_dictMax al term rest _)
      rw [if_pos hbsM]
      by_cases h2 : entryScore al term key item <
          dictMax al term rest (entryScore al term key item)
      · rw [if_pos h2]
        have hne : ¬(entryScore al term key item =
            dictMax al term ((key, item) :: rest) bs) := by
          rw [hMr]; exact ne_of_lt h2
        rw [List.find?_cons_of_neg _ (by simpa using hne), hMr]
      · have heq : dictMax al term rest (entryScore al term key item) =
            entryScore al term key item :=
          le_antisymm (not_lt.mp h2) (le_dictMax al term rest _)
        rw [if_neg h2]
        have hpe : entryScore al term key item =
            dictMax al term ((key, item) :: rest) bs := by rw [hMr, heq]
        rw [List.find?_cons_of_pos _ (by simpa using hpe), Option.map_some', ← hpe]
    · rw [if_neg (by rw [max_eq_left (not_lt.mp hE)]; exact lt_irrefl bs)]
      rw [ih best bs]
      have hMr : dictMax al term ((key, item) :: rest) bs = dictMax al term rest bs := by
        rw [hM, max_eq_left (not_lt.mp hE)]
      rw [hMr]
      by_cases hb : bs < dictMax al term rest bs
      · rw [if_pos hb, if_pos hb]
        have hne : ¬(entryScore al term key item = dictMax al term rest bs) := by
          intro hc
          exact absurd (hc ▸ hb) (not_lt.mpr (not_lt.mp hE))
        rw [List.find?_cons_of_neg _ (by simpa using hne)]
      · rw [if_neg hb, if_neg hb]

theorem findBestMatch_eq_spec (al : α → List (List Char)) (term : List Char)
    (dict : List (List Char × α)) (threshold : ℚ) :
    findBestMatch al term dict threshold = specFindBestMatch al term dict threshold := by
  rw [findBestMatch, findBestMatchGo_eq al term dict none threshold]
  rw [specFindBestMatch]
  have hbest : (dict.map fun e => (e.1, e.2, entryScore al term e.1 e.2)).foldl
      (fun m e => max m e.2.2) threshold = dictMax al term dict threshold := by
    rw [List.foldl_map, dictMax, List.foldl_map]
  rw [hbest]
  by_cases h : threshold < dictMax al term dict threshold
  · rw [if_pos h, if_pos h]
    rw [List.find?_map]
    have hcomp : ((fun e : List Char × α × ℚ => decide (e.2.2 = dictMax al term dict threshold)) ∘
        (fun e : List Char × α => (e.1, e.2, entryScore al term e.1 e.2))) =
        fun e : List Char × α =>
          decide (entryScore al term e.1 e.2 = dictMax al term dict threshold) := rfl
    rw [hcomp]
    cases hf : dict.find? fun e =>
        decide (entryScore al term e.1 e.2 = dictMax al term dict threshold) with
    | none => rfl
    | some e =>
      have := List.find?_some hf
      have he : entryScore al term e.1 e.2 = dictMax al term dict threshold := by
        simpa using this
      simp [Option.map_some', he]
  · rw [if_neg h, if_neg h]

/-- Any match returned by `findBestMatch` names an entry of the dictionary. -/
theorem findBestMatch_mem (al : α → List (List Char)) (term : List Char)
    (dict : List (List Char × α)) (threshold : ℚ) (r : List Char × α × ℚ)
    (h : findBestMatch al term dict threshold = some r) : (r.1, r.2.1) ∈ dict := by
  rw [findBestMatch_eq_spec, specFindBestMatch] at h
  by_cases hc : threshold <
      (dict.map fun e => (e.1, e.2, entryScore al term e.1 e.2)).foldl
        (fun m e => max m e.2.2) threshold
  · rw [if_pos hc] at h
    cases hf : (dict.map fun e => (e.1, e.2, entryScore al term e.1 e.2)).find?
        fun e => decide (e.2.2 =
          (dict.map fun e => (e.1, e.2, entryScore al term e.1 e.2)).foldl
            (fun m e => max m e.2.2) threshold) with
    | none => rw [hf] at h; simp at h
    | some s =>
      rw [hf] at h
      have hmem := List.mem_of_find?_eq_some hf
      rcases List.mem_map.mp hmem with ⟨e, hed, hes⟩
      simp only [Option.map_some', Option.some.injEq] at h
      rw [← h, ← hes]
      exact hed
  · rw [if_neg hc] at h
    exact absurd h (by simp)

/-- **C6.** For every term, dictionary and threshold, `findBestMatch` scores
each entry as the maximum of the similarity of the term to the entry's key and
to each of its aliases, returns an entry only if the best score strictly
exceeds the threshold, returns `none` otherwise, and resolves ties in favour
of the first entry in dictionary (declaration) order — i.e. it equals the
specification-side matcher `specFindBestMatch`; the default threshold is
`0.7`. -/
theorem claim6 :
    (∀ (α : Type) (al : α → List (List Char)) (term : List Char)
        (dict : List (List Char × α)) (threshold : ℚ),
      findBestMatch al term dict threshold = specFindBestMatch al term dict threshold) ∧
    (∀ (α : Type) (al : α → List (List Char)) (term : List Char)
        (dict : List (List Char × α)),
      findBestMatch al term dict = specFindBestMatch al term dict 0.7) :=
  ⟨fun _ al term dict threshold => findBestMatch_eq_spec al term dict threshold,
    fun _ al term dict => findBestMatch_eq_spec al term dict 0.7⟩

/-! ## Currency rounding lemmas -/

/-- `q` is a whole number of cents. -/
def IsCents (q : ℚ) : Prop := (q * 100).den = 1

instance (q : ℚ) : Decidable (IsCents q) :=
  inferInstanceAs (Decidable ((q * 100).den = 1))

theorem isCents_iff (q : ℚ) : IsCents q ↔ ∃ n : ℤ, q * 100 = (n : ℚ) := by
  constructor
  · intro h
    exact ⟨(q * 100).num, ((Rat.den_eq_one_iff _).mp h).symm⟩
  · rintro ⟨n, hn⟩
    show (q * 100).den = 1
    rw [hn]
    exact Rat.den_intCast n

theorem IsCents.add {a b : ℚ} (ha : IsCents a) (hb : IsCents b) : IsCents (a + b) := by
  rcases (isCents_iff a).mp ha with ⟨m, hm⟩
  rcases (isCents_iff b).mp hb with ⟨n, hn⟩
  refine (isCents_iff _).mpr ⟨m + n, ?_⟩
  push_cast
  rw [add_mul, hm, hn]

theorem IsCents.natMul (n : ℕ) {q : ℚ} (h : IsCents q) : IsCents ((n : ℚ) * q) := by
  rcases (isCents_iff q).mp h with ⟨m, hm⟩
  refine (isCents_iff _).mpr ⟨n * m, ?_⟩
  push_cast
  rw [mul_assoc, hm]

theorem roundCurrency_eq_self {q : ℚ} (h : IsCents q) : roundCurrency q = q := by
  rcases (isCents_iff q).mp h with ⟨n, hn⟩
  rw [roundCurrency, hn, round_intCast, div_eq_iff (by norm_num : (100 : ℚ) ≠ 0)]
  exact hn.symm

theorem roundCurrency_isCents (q : ℚ) : IsCents (roundCurrency q) := by
  refine (isCents_iff _).mpr ⟨round (q * 100), ?_⟩
  rw [roundCurrency]
  field_simp

theorem roundCurrency_nonneg {q : ℚ} (h : 0 ≤ q) : 0 ≤ roundCurrency q := by
  rw [roundCurrency]
  apply div_nonneg _ (by norm_num)
  have h2 : (0 : ℚ) ≤ q * 100 + 1 / 2 := by linarith
  rw [round_eq]
  exact_mod_cast Int.floor_nonneg.mpr h2

/-- Rounding to cents, half away from zero — the rounding mode named by the
specification (§3). -/
def roundHalfAwayCents (q : ℚ) : ℚ :=
  ((if q < 0 then -⌊-q * 100 + 1 / 2⌋ else ⌊q * 100 + 1 / 2⌋ : ℤ) : ℚ) / 100

/-- On nonnegative amounts, JS `Math.round` at the cent is exactly
half-away-from-zero rounding at the cent. -/
theorem roundCurrency_eq_roundHalfAway {q : ℚ} (h : 0 ≤ q) :
    roundCurrency q = roundHalfAwayCents q := by
  rw [roundCurrency, roundHalfAwayCents, if_neg (not_lt.mpr h), round_eq]

theorem floor_intCast_add_half (m : ℤ) : ⌊(m : ℚ) + 1 / 2⌋ = m := by
  rw [add_comm, Int.floor_add_int]
  norm_num

theorem roundHalfAwayCents_eq_self {q : ℚ} (h : IsCents q) :
    roundHalfAwayCents q = q := by
  rcases (isCents_iff q).mp h with ⟨n, hn⟩
  have hq : q = (n : ℚ) / 100 := by
    rw [eq_div_iff (by norm_num : (100 : ℚ) ≠ 0)]
    exact hn
  rw [roundHalfAwayCents]
  by_cases hneg : q < 0
  · rw [if_pos hneg]
    have hminus : -q * 100 = ((-n : ℤ) : ℚ) := by
      push_cast
      rw [neg_mul, hn]
    rw [hminus, floor_intCast_add_half, hq]
    push_cast
    ring
  · rw [if_neg hneg, hn, floor_intCast_add_half, hq]

theorem subtotal_isCents (items : List OrderItem) :
    ∀ init : ℚ, IsCents init →
      IsCents (items.foldl (fun t i => roundCurrency (t + i.itemTotal)) init) := by
  induction items with
  | nil => intro init h; exact h
  | cons x xs ih =>
    intro init _
    exact ih (roundCurrency (init + x.itemTotal)) (roundCurrency_isCents _)

theorem subtotal_nonneg (items : List OrderItem)
    (h : ∀ i ∈ items, 0 ≤ i.itemTotal) :
    ∀ init : ℚ, 0 ≤ init →
      0 ≤ items.foldl (fun t i => roundCurrency (t + i.itemTotal)) init := by
  induction items with
  | nil => intro init h0; exact h0
  | cons x xs ih =>
    intro init h0
    have hx : 0 ≤ x.itemTotal := h x (List.mem_cons_self x xs)
    exact ih (fun i hi => h i (List.mem_cons_of_mem x hi))
      (roundCurrency (init + x.itemTotal)) (roundCurrency_nonneg (by linarith))

theorem zero_isCents : IsCents 0 := by decide

/-! ## Dictionary membership and cents facts -/

theorem sizes_cents : ∀ e ∈ sizes, IsCents e.2.priceModifier := by decide

theorem milkTypes_cents : ∀ e ∈ milkTypes, IsCents e.2.priceModifier := by decide

theorem menuItems_cents : ∀ e ∈ menuItems, IsCents e.2.basePrice := by decide

theorem sizeLookup_mem (words : List (List Char)) :
    ∃ k, (k, sizeLookup words) ∈ sizes := by
  rw [sizeLookup]
  cases hf : words.findSome? fun w => findBestMatch (fun _ => []) w sizes with
  | none =>
    simp only [Option.map_none', Option.getD_none]
    exact ⟨("medium").data, by decide⟩
  | some r =>
    simp only [Option.map_some', Option.getD_some]
    rcases List.exists_of_findSome?_eq_some hf with ⟨w, _, hr⟩
    exact ⟨r.1, findBestMatch_mem _ w sizes 0.7 r hr⟩

theorem milkPhrase_mem (lowerText : List Char) : milkPhrase lowerText ∈ milkTypes := by
  rw [milkPhrase]
  cases hf : milkTypes.find? fun (e : List Char × Modifier) =>
      jsIncludes lowerText e.1 with
  | none =>
    simp only [Option.getD_none]
    decide
  | some e =>
    simp only [Option.getD_some]
    exact List.mem_of_find?_eq_some hf

theorem milkLookup_mem (lowerText : List Char) (words : List (List Char)) :
    milkLookup lowerText words ∈ milkTypes := by
  rw [milkLookup]
  by_cases hd : (milkPhrase lowerText).1 = defaultMilkEntry.1
  · rw [if_pos hd]
    cases hf : words.findSome? fun w => findBestMatch (fun _ => []) w milkTypes with
    | none =>
      simp only [Option.map_none', Option.getD_none]
      exact milkPhrase_mem lowerText
    | some r =>
      simp only [Option.map_some', Option.getD_some]
      rcases List.exists_of_findSome?_eq_some hf with ⟨w, _, hr⟩
      exact findBestMatch_mem _ w milkTypes 0.7 r hr
  · rw [if_neg hd]
    exact milkPhrase_mem lowerText

theorem menuLookup_mem (lowerText : List Char) (words : List (List Char))
    (mi : MenuItem) (h : menuLookup lowerText words = some mi) :
    ∃ k, (k, mi) ∈ menuItems := by
  rw [menuLookup] at h
  cases htm : menuTokenMatch words with
  | some mi' =>
    rw [htm] at h
    have hmi : mi' = mi := by injection h
    subst hmi
    rw [menuTokenMatch] at htm
    rcases List.exists_of_findSome?_eq_some htm with ⟨w, _, hw⟩
    by_cases hlen : w.length < 3
    · rw [if_pos hlen] at hw
      exact absurd hw (by simp)
    · rw [if_neg hlen] at hw
      cases hb : findBestMatch MenuItem.aliases w menuItems with
      | none => rw [hb] at hw; exact absurd hw (by simp)
      | some r =>
        rw [hb] at hw
        simp only [Option.map_some', Option.some.injEq] at hw
        rw [← hw]
        exact ⟨r.1, findBestMatch_mem _ w menuItems 0.7 r hb⟩
  | none =>
    rw [htm] at h
    rw [menuFallback] at h
    rcases List.exists_of_findSome?_eq_some h with ⟨e, he, hee⟩
    by_cases hin : jsIncludes lowerText e.1 = true
    · rw [if_pos hin] at hee
      have : e.2 = mi := by injection hee
      exact ⟨e.1, by rw [← this]; exact he⟩
    · rw [if_neg hin] at hee
      exact absurd hee (by simp)

/-- Inversion of a successful `parseOrderItem`: the produced item is built from
the menu, size and milk lookups of the lowercased text. -/
theorem parseOrderItem_item_inv (text : List Char) (itm : OrderItem)
    (h : (parseOrderItem text).item = some itm) :
    ∃ mi : MenuItem,
      menuLookup (toLowerStr text) (splitWs (toLowerStr text)) = some mi ∧
      itm.menuItem = mi ∧
      itm.size = (sizeLookup (splitWs (toLowerStr text))).name ∧
      itm.milkType = (milkLookup (toLowerStr text) (splitWs (toLowerStr text))).2.name ∧
      itm.itemTotal =
        (mi.basePrice + (sizeLookup (splitWs (toLowerStr text))).priceModifier +
          (milkLookup (toLowerStr text) (splitWs (toLowerStr text))).2.priceModifier) *
          (itm.quantity : ℚ) := by
  simp only [parseOrderItem] at h
  cases hm : menuLookup (toLowerStr text) (splitWs (toLowerStr text)) with
  | none =>
    rw [hm] at h
    simp at h
  | some mi =>
    rw [hm] at h
    injection h with h2
    subst h2
    exact ⟨mi, rfl, rfl, rfl, rfl, rfl⟩

/-- The single resolved item of the shipped scenario
`"1 large cappuccino with oat milk"`. -/
def scenarioItem : OrderItem :=
  { menuItem := cappuccino
    quantity := 1
    size := ("Large").data
    milkType := ("Oat Milk").data
    itemTotal := 4.50 }

set_option maxHeartbeats 4000000 in
/-- **C1.** Every resolved item's line total equals
`round(quantity × (base + size delta + milk delta), 2)` half away from zero
(the value is exact, so the rounding is the identity); `createOrder`'s
subtotal is the left-to-right running sum of the item totals with each
addition re-rounded to cents; the tax is the subtotal times `0.085` rounded to
cents half away from zero (for the nonnegative totals resolved items carry);
the total equals `subtotal + tax` exactly; and the shipped scenario
`"1 large cappuccino with oat milk"` prices to subtotal `4.50`, tax `0.38`,
total `4.88`. -/
theorem claim1 :
    (∀ (text : List Char) (itm : OrderItem),
        (parseOrderItem text).item = some itm →
        ∃ sizeMod milkMod : Modifier,
          (∃ k, (k, sizeMod) ∈ sizes) ∧
          (∃ k, (k, milkMod) ∈ milkTypes) ∧
          (∃ k, (k, itm.menuItem) ∈ menuItems) ∧
          itm.size = sizeMod.name ∧ itm.milkType = milkMod.name ∧
          itm.itemTotal = roundHalfAwayCents ((itm.quantity : ℚ) *
            (itm.menuItem.basePrice + sizeMod.priceModifier + milkMod.priceModifier))) ∧
    (∀ (now : Nat) (items : List OrderItem) (customer : Customer),
        (createOrder now items customer).subtotal =
          items.foldl (fun t i => roundCurrency (t + i.itemTotal)) 0 ∧
        ((∀ i ∈ items, 0 ≤ i.itemTotal) →
          (createOrder now items customer).tax =
            roundHalfAwayCents ((createOrder now items customer).subtotal * 0.085)) ∧
        (createOrder now items customer).total =
          (createOrder now items customer).subtotal +
            (createOrder now items customer).tax) ∧
    (∀ (now : Nat) (customer : Customer),
        (parseOrder (("1 large cappuccino with oat milk").data)).items =
          some [scenarioItem] ∧
        (createOrder now [scenarioItem] customer).subtotal = 4.50 ∧
        (createOrder now [scenarioItem] customer).tax = 0.38 ∧
        (createOrder now [scenarioItem] customer).total = 4.88) := by
  refine ⟨?_, ?_, ?_⟩
  · intro text itm h
    obtain ⟨mi, hm, hmi, hs, hk, ht⟩ := parseOrderItem_item_inv text itm h
    refine ⟨sizeLookup (splitWs (toLowerStr text)),
      (milkLookup (toLowerStr text) (splitWs (toLowerStr text))).2,
      sizeLookup_mem _, ?_, ?_, hs, hk, ?_⟩
    · refine ⟨(milkLookup (toLowerStr text) (splitWs (toLowerStr text))).1, ?_⟩
      rw [Prod.mk.eta]
      exact milkLookup_mem _ _
    · rw [hmi]
      exact menuLookup_mem _ _ mi hm
    · have hbase : IsCents mi.basePrice := by
        rcases menuLookup_mem _ _ mi hm with ⟨k, hk2⟩
        exact menuItems_cents (k, mi) hk2
      have hsizec : IsCents (sizeLookup (splitWs (toLowerStr text))).priceModifier := by
        rcases sizeLookup_mem (splitWs (toLowerStr text)) with ⟨k, hk3⟩
        exact sizes_cents (k, _) hk3
      have hmilkc : IsCents
          (milkLookup (toLowerStr text) (splitWs (toLowerStr text))).2.priceModifier :=
        milkTypes_cents _ (milkLookup_mem _ _)
      rw [ht, hmi, mul_comm,
        roundHalfAwayCents_eq_self (IsCents.natMul itm.quantity
          ((hbase.add hsizec).add hmilkc))]
  · intro now items customer
    refine ⟨rfl, ?_, ?_⟩
    · intro hnn
      have hsub : (createOrder now items customer).subtotal =
          items.foldl (fun t i => roundCurrency (t + i.itemTotal)) 0 := rfl
      have hsub0 : 0 ≤ (createOrder now items customer).subtotal := by
        rw [hsub]
        exact subtotal_nonneg items hnn 0 le_rfl
      have htax : (createOrder now items customer).tax =
          roundCurrency ((createOrder now items customer).subtotal * 0.085) := rfl
      rw [htax]
      exact roundCurrency_eq_roundHalfAway (mul_nonneg hsub0 (by norm_num))
    · have hsub2 : (createOrder now items customer).subtotal =
          items.foldl (fun t i => roundCurrency (t + i.itemTotal)) 0 := rfl
      have hsc : IsCents (createOrder now items customer).subtotal := by
        rw [hsub2]
        exact subtotal_isCents items 0 zero_isCents
      have htc : IsCents (createOrder now items customer).tax := by
        have htax : (createOrder now items customer).tax =
            roundCurrency ((createOrder now items customer).subtotal * 0.085) := rfl
        rw [htax]
        exact roundCurrency_isCents _
      have htot : (createOrder now items customer).total =
          roundCurrency ((createOrder now items customer).subtotal +
            (createOrder now items customer).tax) := rfl
      rw [htot]
      exact roundCurrency_eq_self (hsc.add htc)
  · intro now customer
    have hsub : (createOrder now [scenarioItem] customer).subtotal =
        ([scenarioItem] : List OrderItem).foldl
          (fun t i => roundCurrency (t + i.itemTotal)) 0 := rfl
    have htax : (createOrder now [scenarioItem] customer).tax =
        roundCurrency ((createOrder now [scenarioItem] customer).subtotal * 0.085) := rfl
    have htot : (createOrder now [scenarioItem] customer).total =
        roundCurrency ((createOrder now [scenarioItem] customer).subtotal +
          (createOrder now [scenarioItem] customer).tax) := rfl
    refine ⟨by decide, ?_, ?_, ?_⟩
    · rw [hsub]
      decide
    · rw [htax, hsub]
      decide
    · rw [htot, htax, hsub]
      decide

/-- Witness item for claim 1: the item `parseOrderItem` resolves for
`"1 latte"`. -/
def latteWitnessItem : OrderItem :=
  { menuItem := latte
    quantity := 1
    size := ("Large").data
    milkType := ("Whole Milk").data
    itemTotal := 4.50 }

set_option maxHeartbeats 1600000 in
theorem claim1_witness :
    (∃ sizeMod milkMod : Modifier,
      (∃ k, (k, sizeMod) ∈ sizes) ∧
      (∃ k, (k, milkMod) ∈ milkTypes) ∧
      (∃ k, (k, latteWitnessItem.menuItem) ∈ menuItems) ∧
      latteWitnessItem.size = sizeMod.name ∧
      latteWitnessItem.milkType = milkMod.name ∧
      latteWitnessItem.itemTotal = roundHalfAwayCents
        ((latteWitnessItem.quantity : ℚ) * (latteWitnessItem.menuItem.basePrice +
          sizeMod.priceModifier + milkMod.priceModifier))) ∧
    (createOrder 0 [latteWitnessItem] ⟨("77").data, ("Ann").data⟩).tax =
      roundHalfAwayCents
        ((createOrder 0 [latteWitnessItem] ⟨("77").data, ("Ann").data⟩).subtotal * 0.085) :=
  ⟨claim1.1 (("1 latte").data) latteWitnessItem (by decide),
    (claim1.2.1 0 [latteWitnessItem] ⟨("77").data, ("Ann").data⟩).2.1 (by decide)⟩

/-! ## Splitter lemmas -/

theorem dropWhile_head_not_ws :
    ∀ (l : List Char) (c : Char),
      (l.dropWhile Char.isWhitespace).head? = some c → c.isWhitespace = false := by
  intro l
  induction l with
  | nil => intro c h; simp at h
  | cons a t ih =>
    intro c h
    rw [List.dropWhile_cons] at h
    by_cases ha : a.isWhitespace = true
    · rw [if_pos ha] at h
      exact ih c h
    · rw [if_neg ha] at h
      simp only [List.head?_cons, Option.some.injEq] at h
      rw [← h]
      exact Bool.eq_false_iff.mpr ha

theorem dropWhile_getLast_eq (l : List Char) (p : Char → Bool)
    (h : l.dropWhile p ≠ []) : (l.dropWhile p).getLast? = l.getLast? := by
  obtain ⟨t, ht⟩ := List.dropWhile_suffix (l := l) p
  conv_rhs => rw [← ht]
  rw [List.getLast?_append_of_ne_nil _ h]

theorem trim_head_not_ws (x : List Char) (c : Char)
    (h : (trim x).head? = some c) : c.isWhitespace = false := by
  rw [trim, List.head?_reverse] at h
  have hne : (x.dropWhile Char.isWhitespace).reverse.dropWhile Char.isWhitespace ≠ [] := by
    intro he
    rw [he] at h
    simp at h
  rw [dropWhile_getLast_eq _ _ hne, List.getLast?_reverse] at h
  exact dropWhile_head_not_ws x c h

theorem trim_getLast_not_ws (x : List Char) (c : Char)
    (h : (trim x).getLast? = some c) : c.isWhitespace = false := by
  rw [trim, List.getLast?_reverse] at h
  exact dropWhile_head_not_ws (x.dropWhile Char.isWhitespace).reverse c h

theorem splitPass_inv (text sep : List Char) (items : List (List Char))
    (h : ∀ x ∈ items, x = text ∨ (x ≠ [] ∧
      (∀ c, x.head? = some c → c.isWhitespace = false) ∧
      (∀ c, x.getLast? = some c → c.isWhitespace = false))) :
    ∀ x ∈ splitPass sep items, x = text ∨ (x ≠ [] ∧
      (∀ c, x.head? = some c → c.isWhitespace = false) ∧
      (∀ c, x.getLast? = some c → c.isWhitespace = false)) := by
  intro x hx
  rw [splitPass] at hx
  rcases List.mem_flatMap.mp hx with ⟨item, hitem, hxi⟩
  by_cases hin : jsIncludes item sep = true
  · rw [if_pos hin] at hxi
    rcases List.mem_filter.mp hxi with ⟨hxmap, hxne⟩
    rcases List.mem_map.mp hxmap with ⟨y, _, hy⟩
    right
    have hne : x ≠ [] := by
      intro he
      rw [he] at hxne
      simp at hxne
    refine ⟨hne, ?_, ?_⟩
    · intro c hc
      rw [← hy] at hc
      exact trim_head_not_ws y c hc
    · intro c hc
      rw [← hy] at hc
      exact trim_getLast_not_ws y c hc
  · rw [if_neg hin] at hxi
    simp only [List.mem_singleton] at hxi
    rw [hxi]
    exact h item hitem

theorem splitPass_no_sep (sep item : List Char) (h : jsIncludes item sep = false) :
    splitPass sep [item] = [item] := by
  rw [splitPass]
  simp [h]

theorem jsIncludes_infix_iff (hay needle : List Char) :
    jsIncludes hay needle = true ↔ needle <:+: hay := by
  induction hay with
  | nil =>
    show (needle.isPrefixOf []) = true ↔ _
    rw [List.isPrefixOf_iff_prefix]
    simp [List.prefix_nil, List.infix_nil]
  | cons h t ih =>
    show (needle.isPrefixOf (h :: t) || jsIncludes t needle) = true ↔ _
    rw [Bool.or_eq_true, List.isPrefixOf_iff_prefix, ih, List.infix_cons_iff]

theorem separators_have_non_ws :
    ∀ s ∈ separators, ∃ c ∈ s, c.isWhitespace = false := by decide

theorem wsOnly_not_includes (text s : List Char)
    (hws : ∀ c ∈ text, c.isWhitespace = true)
    (hc : ∃ c ∈ s, c.isWhitespace = false) : jsIncludes text s = false := by
  by_contra hcon
  rw [Bool.not_eq_false] at hcon
  have hinf := (jsIncludes_infix_iff text s).mp hcon
  have hsub := hinf.sublist.subset
  rcases hc with ⟨c, hcs, hcw⟩
  have := hws c (hsub hcs)
  rw [this] at hcw
  exact absurd hcw (by simp)

theorem wsOnly_no_sep (text : List Char)
    (hws : ∀ c ∈ text, c.isWhitespace = true) :
    ∀ s ∈ separators, jsIncludes text s = false := fun s hs =>
  wsOnly_not_includes text s hws (separators_have_non_ws s hs)

theorem splitOrderItems_no_sep (text : List Char)
    (h : ∀ s ∈ separators, jsIncludes text s = false) :
    splitOrderItems text = [text] := by
  rw [splitOrderItems]
  have hgen : ∀ seps : List (List Char), (∀ s ∈ seps, jsIncludes text s = false) →
      seps.foldl (fun its sep => splitPass sep its) [text] = [text] := by
    intro seps
    induction seps with
    | nil => intro _; rfl
    | cons s ss ih =>
      intro hh
      show ss.foldl _ (splitPass s [text]) = [text]
      rw [splitPass_no_sep s text (hh s (List.mem_cons_self s ss))]
      exact ih fun t ht => hh t (List.mem_cons_of_mem s ht)
  exact hgen separators h

/-- **C2 (corrected).** The original claim — every element of
`splitOrderItems` is a non-empty string without edge whitespace, and
empty/whitespace-only input yields the empty list — fails: an input containing
no separator is passed through verbatim, untrimmed (see `claim2_cex`).  As
amended: every returned element either is the input itself, or is non-empty
with no leading or trailing whitespace; and when the input contains none of
the four separators — in particular when it is empty or whitespace-only — the
result is the one-element list holding the input verbatim (never the empty
list). -/
theorem claim2 (text : List Char) :
    (∀ x ∈ splitOrderItems text, x = text ∨ (x ≠ [] ∧
      (∀ c, x.head? = some c → c.isWhitespace = false) ∧
      (∀ c, x.getLast? = some c → c.isWhitespace = false))) ∧
    ((∀ s ∈ separators, jsIncludes text s = false) → splitOrderItems text = [text]) ∧
    ((∀ c ∈ text, c.isWhitespace = true) → splitOrderItems text = [text]) := by
  refine ⟨?_, splitOrderItems_no_sep text, ?_⟩
  · rw [splitOrderItems]
    have hgen : ∀ (seps : List (List Char)) (items : List (List Char)),
        (∀ x ∈ items, x = text ∨ (x ≠ [] ∧
          (∀ c, x.head? = some c → c.isWhitespace = false) ∧
          (∀ c, x.getLast? = some c → c.isWhitespace = false))) →
        ∀ x ∈ seps.foldl (fun its sep => splitPass sep its) items,
          x = text ∨ (x ≠ [] ∧
            (∀ c, x.head? = some c → c.isWhitespace = false) ∧
            (∀ c, x.getLast? = some c → c.isWhitespace = false)) := by
      intro seps
      induction seps with
      | nil => intro items h; exact h
      | cons s ss ih =>
        intro items h
        exact ih (splitPass s items) (splitPass_inv text s items h)
    refine hgen separators [text] ?_
    intro x hx
    simp only [List.mem_singleton] at hx
    exact Or.inl hx
  · intro hws
    exact splitOrderItems_no_sep text (wsOnly_no_sep text hws)

/-- **C2 counterexample.** For the whitespace-only input `" "` the splitter
returns the one-element list `[" "]`: the result is not empty, and its element
carries leading (and trailing) whitespace — refuting both parts of the
original claim. -/
theorem claim2_cex :
    splitOrderItems ((" ").data) = [(" ").data] ∧
    ((" ").data ≠ ([] : List Char)) ∧
    ((" ").data).head? = some ' ' ∧
    (' ').isWhitespace = true := by decide

theorem claim2_witness :
    ((("a").data = ("a, b ").data ∨ ((("a").data ≠ ([] : List Char)) ∧
      (∀ c, (("a").data).head? = some c → c.isWhitespace = false) ∧
      (∀ c, (("a").data).getLast? = some c → c.isWhitespace = false)))) ∧
    splitOrderItems ((" ").data) = [(" ").data] :=
  ⟨(claim2 (("a, b ").data)).1 (("a").data) (by decide),
    (claim2 ((" ").data)).2.2 (by decide)⟩

/-! ## Whitespace-only input lemmas (C3) -/

theorem toLower_ws (c : Char) (h : c.isWhitespace = true) : c.toLower = c := by
  have hd : ((c = ' ' ∨ c = '\t') ∨ c = '\x0d') ∨ c = '\n' := by
    simpa [Char.isWhitespace] using h
  rcases hd with ((rfl | rfl) | rfl) | rfl <;> decide

theorem toLowerStr_wsOnly (text : List Char)
    (hws : ∀ c ∈ text, c.isWhitespace = true) :
    ∀ c ∈ toLowerStr text, c.isWhitespace = true := by
  intro c hc
  rcases List.mem_map.mp hc with ⟨d, hd, hdc⟩
  have hw := hws d hd
  rw [← hdc, toLower_ws d hw]
  exact hw

theorem splitWsGo_wsOnly :
    ∀ (cs : List Char), (∀ c ∈ cs, c.isWhitespace = true) →
      ∀ (b : Bool), ∀ t ∈ splitWsGo b [] cs, t = [] := by
  intro cs
  induction cs with
  | nil =>
    intro _ b t ht
    simp only [splitWsGo, List.reverse_nil, List.mem_singleton] at ht
    exact ht
  | cons c cs' ih =>
    intro hws b t ht
    have hc : c.isWhitespace = true := hws c (List.mem_cons_self c cs')
    have hrest : ∀ d ∈ cs', d.isWhitespace = true :=
      fun d hd => hws d (List.mem_cons_of_mem c hd)
    cases b with
    | true =>
      simp only [splitWsGo, hc, if_true, List.reverse_nil] at ht
      exact ih hrest true t ht
    | false =>
      simp only [splitWsGo, hc, if_true, List.reverse_nil] at ht
      rcases List.mem_cons.mp ht with h1 | h2
      · exact h1
      · exact ih hrest true t h2

theorem splitWs_wsOnly (l : List Char) (hws : ∀ c ∈ l, c.isWhitespace = true) :
    ∀ t ∈ splitWs l, t = [] :=
  splitWsGo_wsOnly l hws false

theorem menuItems_keys_non_ws :
    ∀ e ∈ menuItems, ∃ c ∈ e.1, c.isWhitespace = false := by decide

/-- On whitespace-only input the item interpreter fails with the
item-not-found message: every token is empty (hence skipped) and no menu key
is contained in whitespace. -/
theorem parseOrderItem_wsOnly (text : List Char)
    (hws : ∀ c ∈ text, c.isWhitespace = true) :
    parseOrderItem text =
      { success := false, item := none, error := some itemNotFoundMsg } := by
  have hlws : ∀ c ∈ toLowerStr text, c.isWhitespace = true := toLowerStr_wsOnly text hws
  have htok : menuTokenMatch (splitWs (toLowerStr text)) = none := by
    rw [menuTokenMatch, List.findSome?_eq_none_iff]
    intro w hw
    have hwnil := splitWs_wsOnly (toLowerStr text) hlws w hw
    rw [hwnil]
    rfl
  have hfall : menuFallback (toLowerStr text) = none := by
    rw [menuFallback, List.findSome?_eq_none_iff]
    intro e he
    rw [wsOnly_not_includes (toLowerStr text) e.1 hlws (menuItems_keys_non_ws e he)]
    rfl
  have hmenu : menuLookup (toLowerStr text) (splitWs (toLowerStr text)) = none := by
    rw [menuLookup, htok, hfall]
  simp only [parseOrderItem, hmenu]

theorem failMsgWsOnly :
    ("Failed to parse order: ").data ++ List.intercalate (("; ").data) [itemNotFoundMsg] =
      ("Failed to parse order: Menu item not found. Available items: Cappuccino, Latte").data := by
  decide

/-- **C3 (corrected).** The original claim — empty or whitespace-only input
hits the zero-substrings branch and yields the "please specify at least one
item" message — fails: the splitter returns `[input]` for such input (see
`claim2`), so the input itself is interpreted as an item and fails menu
lookup.  As amended: for every empty or whitespace-only input, `parseOrder`
returns a failure whose error is the joined item-lookup message
`"Failed to parse order: Menu item not found. Available items: Cappuccino,
Latte"`, not the "please specify at least one item" message. -/
theorem claim3 (text : List Char)
    (hws : ∀ c ∈ text, c.isWhitespace = true) :
    parseOrder text =
      { success := false, items := none,
        error := some (("Failed to parse order: Menu item not found. Available items: Cappuccino, Latte").data) } ∧
    (parseOrder text).error ≠
      some (("Please specify at least one item to order.").data) := by
  have hsplit := splitOrderItems_no_sep text (wsOnly_no_sep text hws)
  have hitem := parseOrderItem_wsOnly text hws
  have hmain : parseOrder text =
      { success := false, items := none,
        error := some (("Failed to parse order: Menu item not found. Available items: Cappuccino, Latte").data) } := by
    simp only [parseOrder, hsplit, List.map_cons, List.map_nil, hitem,
      List.isEmpty_cons, Bool.false_eq_true, if_false]
    decide
  refine ⟨hmain, ?_⟩
  rw [hmain]
  decide

/-- **C3 counterexample.** For the empty input, `parseOrder` returns the
item-lookup failure message, not the "please specify at least one item"
message claimed for the zero-substrings branch. -/
theorem claim3_cex :
    parseOrder ([] : List Char) =
      { success := false, items := none,
        error := some (("Failed to parse order: Menu item not found. Available items: Cappuccino, Latte").data) } ∧
    (("Failed to parse order: Menu item not found. Available items: Cappuccino, Latte").data ≠
      ("Please specify at least one item to order.").data) := by decide

theorem claim3_witness :
    parseOrder ((" ").data) =
      { success := false, items := none,
        error := some (("Failed to parse order: Menu item not found. Available items: Cappuccino, Latte").data) } ∧
    (parseOrder ((" ").data)).error ≠
      some (("Please specify at least one item to order.").data) :=
  claim3 ((" ").data) (by decide)

/-! ## Order parser aggregation (C4) -/

theorem parseOrderItem_success_iff_item (s : List Char) :
    (parseOrderItem s).success = true ↔ ∃ itm, (parseOrderItem s).item = some itm := by
  simp only [parseOrderItem]
  cases hm : menuLookup (toLowerStr s) (splitWs (toLowerStr s)) with
  | none => simp
  | some mi => simp

/-- **C4.** When the splitter yields at least one substring, `parseOrder`
succeeds iff at least one substring interprets successfully; on success the
items list is exactly the successfully interpreted items in input order
(failed substrings silently dropped); and a success outcome never carries an
empty items list. -/
theorem claim4 (text : List Char) (hne : splitOrderItems text ≠ []) :
    ((parseOrder text).success = true ↔
      ∃ s ∈ splitOrderItems text, (parseOrderItem s).success = true) ∧
    ((parseOrder text).success = true →
      (parseOrder text).items = some ((splitOrderItems text).filterMap fun s =>
        if (parseOrderItem s).success then (parseOrderItem s).item else none)) ∧
    ((parseOrder text).success = true → (parseOrder text).items ≠ some []) := by
  have hcond : ¬((splitOrderItems text).isEmpty = true) := by
    simpa [List.isEmpty_iff] using hne
  have hfm : ((splitOrderItems text).map parseOrderItem).filterMap
      (fun r => if r.success then r.item else none) =
      (splitOrderItems text).filterMap fun s =>
        if (parseOrderItem s).success then (parseOrderItem s).item else none := by
    rw [List.filterMap_map]
    rfl
  have hkey : parseOrder text =
      if ((splitOrderItems text).filterMap fun s =>
          if (parseOrderItem s).success then (parseOrderItem s).item else none).isEmpty then
        { success := false, items := none,
          error := some (if (((splitOrderItems text).map parseOrderItem).filterMap fun r =>
              if r.success && r.item.isSome then none else r.error).isEmpty then
            ("Failed to parse your order. Please try again with a simpler format.").data
          else ("Failed to parse order: ").data ++ List.intercalate (("; ").data)
            (((splitOrderItems text).map parseOrderItem).filterMap fun r =>
              if r.success && r.item.isSome then none else r.error)) }
      else
        { success := true,
          items := some ((splitOrderItems text).filterMap fun s =>
            if (parseOrderItem s).success then (parseOrderItem s).item else none),
          error := none } := by
    simp only [parseOrder]
    rw [if_neg hcond, hfm]
  rw [hkey]
  by_cases hempty : ((splitOrderItems text).filterMap fun s =>
      if (parseOrderItem s).success then (parseOrderItem s).item else none) = []
  · rw [if_pos (List.isEmpty_iff.mpr hempty)]
    refine ⟨?_, by simp, by simp⟩
    constructor
    · intro h
      exact absurd h (by simp)
    · rintro ⟨s, hs, hsucc⟩
      exfalso
      have hnone := (List.filterMap_eq_nil_iff.mp hempty) s hs
      rw [if_pos hsucc] at hnone
      rcases (parseOrderItem_success_iff_item s).mp hsucc with ⟨itm, hitm⟩
      rw [hitm] at hnone
      exact absurd hnone (by simp)
  · rw [if_neg fun hcontra => hempty (List.isEmpty_iff.mp hcontra)]
    refine ⟨?_, fun _ => rfl, fun _ hcontra => ?_⟩
    · constructor
      · intro _
        obtain ⟨x, hx⟩ := List.exists_mem_of_ne_nil _ hempty
        rcases List.mem_filterMap.mp hx with ⟨s, hsL, hsx⟩
        by_cases hsucc : (parseOrderItem s).success = true
        · exact ⟨s, hsL, hsucc⟩
        · rw [if_neg hsucc] at hsx
          exact absurd hsx (by simp)
      · intro _
        rfl
    · have := Option.some.inj hcontra
      exact hempty this

theorem claim4_witness :
    ((parseOrder (("1 latte").data)).success = true ↔
      ∃ s ∈ splitOrderItems (("1 latte").data), (parseOrderItem s).success = true) ∧
    ((parseOrder (("1 latte").data)).success = true →
      (parseOrder (("1 latte").data)).items ≠ some []) :=
  ⟨(claim4 (("1 latte").data) (by decide)).1,
    (claim4 (("1 latte").data) (by decide)).2.2⟩

/-! ## Quantity resolution (C7) -/

/-- **C7 (corrected).** Every interpreted item's quantity equals the numeric
value of the leading run of digits of the lowercased text when that run is
non-empty, and defaults to 1 when it is absent.  The quantity is therefore not
always positive: a leading digit run `"0"` yields quantity 0 (see the
counterexample). -/
theorem claim7 (text : List Char) (itm : OrderItem)
    (h : (parseOrderItem text).item = some itm) :
    itm.quantity =
      (if (toLowerStr text).takeWhile Char.isDigit = [] then 1
       else digitsToNat ((toLowerStr text).takeWhile Char.isDigit)) := by
  simp only [parseOrderItem] at h
  cases hm : menuLookup (toLowerStr text) (splitWs (toLowerStr text)) with
  | none =>
    rw [hm] at h
    simp at h
  | some mi =>
    rw [hm] at h
    injection h with h2
    subst h2
    rfl

/-- The item `parseOrderItem` resolves for `"2 latte"`. -/
def qtyWitnessItem : OrderItem :=
  { menuItem := latte
    quantity := 2
    size := ("Large").data
    milkType := ("Whole Milk").data
    itemTotal := 9 }

theorem claim7_witness :
    qtyWitnessItem.quantity =
      (if (toLowerStr (("2 latte").data)).takeWhile Char.isDigit = [] then 1
       else digitsToNat ((toLowerStr (("2 latte").data)).takeWhile Char.isDigit)) :=
  claim7 (("2 latte").data) qtyWitnessItem (by decide)

theorem claim7_cex :
    ((parseOrderItem (("0 latte").data)).item.map OrderItem.quantity) = some 0 ∧
    ¬ 0 < 0 := by
  exact ⟨by decide, by decide⟩

/-! ## Unknown-item error (C8) -/

/-- **C8.** For the input `"1 espresso"` with the shipped menu, `parseOrder`
fails with the item-not-found message, and that message lists exactly the
canonical menu names `Cappuccino` and `Latte` as available items. -/
theorem claim8 :
    parseOrder (("1 espresso").data) =
      { success := false
        items := none
        error := some
          (("Failed to parse order: ").data ++ itemNotFoundMsg) } ∧
    itemNotFoundMsg =
      ("Menu item not found. Available items: Cappuccino, Latte").data ∧
    menuItems.map (fun (e : List Char × MenuItem) => e.2.name) =
      [("Cappuccino").data, ("Latte").data] := by
  exact ⟨by decide, by decide, by decide⟩

/-! ## The latte large-size quirk (C10) -/

/-- **C10.** The input `"1 latte"` contains no size word, yet the interpreter
selects the Large size (+0.50, line total 4.50) rather than the Medium
default: the one-letter size key `'l'` is a substring of the token `'latte'`,
so their similarity is the containment shortcut value 0.9, which strictly
exceeds the 0.7 matching threshold. -/
theorem claim10 :
    (parseOrderItem (("1 latte").data)).item =
      some
        { menuItem := latte
          quantity := 1
          size := ("Large").data
          milkType := ("Whole Milk").data
          itemTotal := 4.50 } ∧
    sizeLookup (splitWs (toLowerStr (("1 latte").data))) = ⟨("Large").data, 0.50⟩ ∧
    jsIncludes (("latte").data) (("l").data) = true ∧
    calculateSimilarity (("latte").data) (("l").data) = 0.9 ∧
    (0.7 : ℚ) < calculateSimilarity (("latte").data) (("l").data) ∧
    (("l").data, (⟨("Large").data, 0.50⟩ : Modifier)) ∈ sizes := by
  refine ⟨by decide, by decide, by decide, by decide, by decide, by decide⟩

/-! ## Decimal rendering facts (C9)

`generateOrderId` keys the time component on the last six characters of the
decimal rendering of the clock value, so its collision behaviour is governed
by the value of those six characters, i.e. by the clock value modulo `10^6`. -/

/-- The zero-padded `k`-character decimal rendering of `r < 10^k`. -/
def pad : Nat → Nat → List Char
  | 0, _ => []
  | k + 1, r => pad k (r / 10) ++ [digitChar (r % 10)]

theorem pad_length : ∀ (k r : Nat), (pad k r).length = k := by
  intro k
  induction k with
  | zero => intro r; rfl
  | succ k ih =>
    intro r
    show (pad k (r / 10) ++ [digitChar (r % 10)]).length = k + 1
    rw [List.length_append, ih]
    simp

theorem digitsToNat_foldl :
    ∀ (l : List Char) (a : Nat),
      List.foldl (fun b c => b * 10 + (c.toNat - 48)) a l =
        a * 10 ^ l.length + digitsToNat l := by
  intro l
  induction l with
  | nil =>
    intro a
    simp [digitsToNat]
  | cons c t ih =>
    intro a
    have hd : digitsToNat (c :: t) =
        List.foldl (fun b c => b * 10 + (c.toNat - 48)) (c.toNat - 48) t := by
      simp [digitsToNat]
    rw [List.foldl_cons, ih, hd, ih, List.length_cons]
    ring

theorem digitsToNat_append (l1 l2 : List Char) :
    digitsToNat (l1 ++ l2) = digitsToNat l1 * 10 ^ l2.length + digitsToNat l2 := by
  have h : digitsToNat (l1 ++ l2) =
      List.foldl (fun b c => b * 10 + (c.toNat - 48)) (digitsToNat l1) l2 := by
    simp [digitsToNat, List.foldl_append]
  rw [h, digitsToNat_foldl]

theorem digitsToNat_single (d : Nat) (h : d < 10) : digitsToNat [digitChar d] = d := by
  interval_cases d <;> decide

theorem digitsToNat_pad : ∀ (k r : Nat), r < 10 ^ k → digitsToNat (pad k r) = r := by
  intro k
  induction k with
  | zero =>
    intro r hr
    have h0 : r = 0 := by simpa using hr
    subst h0
    decide
  | succ k ih =>
    intro r hr
    have hdiv : r / 10 < 10 ^ k :=
      (Nat.div_lt_iff_lt_mul (by norm_num)).mpr (by rw [← pow_succ]; exact hr)
    show digitsToNat (pad k (r / 10) ++ [digitChar (r % 10)]) = r
    rw [digitsToNat_append, ih (r / 10) hdiv,
      digitsToNat_single (r % 10) (Nat.mod_lt _ (by norm_num))]
    simp only [List.length_singleton, pow_one]
    omega

theorem digitsToNat_decDigits : ∀ (n : Nat), digitsToNat (decDigits n) = n := by
  intro n
  induction n using Nat.strong_induction_on with
  | _ n ih =>
    by_cases h : n < 10
    · rw [decDigits, dif_pos h]
      exact digitsToNat_single n h
    · rw [decDigits, dif_neg h]
      rw [digitsToNat_append, ih (n / 10) (Nat.div_lt_self (by omega) (by omega)),
        digitsToNat_single (n % 10) (Nat.mod_lt _ (by norm_num))]
      simp only [List.length_singleton, pow_one]
      omega

theorem length_decDigits_le :
    ∀ (k : Nat), ∀ (n : Nat), n < 10 ^ (k + 1) → (decDigits n).length ≤ k + 1 := by
  intro k
  induction k with
  | zero =>
    intro n hn
    have h10 : n < 10 := by simpa using hn
    rw [decDigits, dif_pos h10]
    simp
  | succ k ih =>
    intro n hn
    by_cases h10 : n < 10
    · rw [decDigits, dif_pos h10]
      simp
    · rw [decDigits, dif_neg h10, List.length_append]
      have hd : (decDigits (n / 10)).length ≤ k + 1 :=
        ih (n / 10) ((Nat.div_lt_iff_lt_mul (by norm_num)).mpr (by rw [← pow_succ]; exact hn))
      simp only [List.length_singleton]
      omega

theorem decDigits_split :
    ∀ (k q r : Nat), 0 < q → r < 10 ^ k →
      decDigits (q * 10 ^ k + r) = decDigits q ++ pad k r := by
  intro k
  induction k with
  | zero =>
    intro q r _ hr
    have h0 : r = 0 := by simpa using hr
    subst h0
    simp [pad]
  | succ k ih =>
    intro q r hq hr
    have h1 : q * 10 ^ (k + 1) + r = r + 10 * (q * 10 ^ k) := by ring
    have hge : ¬ (q * 10 ^ (k + 1) + r < 10) := by
      have ha : 10 ≤ 10 ^ (k + 1) :=
        (pow_one 10).symm.trans_le (Nat.pow_le_pow_right (by norm_num) (by omega))
      have hb : 10 ^ (k + 1) ≤ q * 10 ^ (k + 1) := Nat.le_mul_of_pos_left _ hq
      omega
    have hdiv : (q * 10 ^ (k + 1) + r) / 10 = q * 10 ^ k + r / 10 := by
      rw [h1, Nat.add_mul_div_left r (q * 10 ^ k) (by norm_num)]
      exact Nat.add_comm _ _
    have hmod : (q * 10 ^ (k + 1) + r) % 10 = r % 10 := by
      rw [h1, Nat.add_mul_mod_self_left]
    have hrdiv : r / 10 < 10 ^ k :=
      (Nat.div_lt_iff_lt_mul (by norm_num)).mpr (by rw [← pow_succ]; exact hr)
    rw [decDigits, dif_neg hge, hdiv, hmod, ih q (r / 10) hq hrdiv]
    show decDigits q ++ pad k (r / 10) ++ [digitChar (r % 10)] =
      decDigits q ++ (pad k (r / 10) ++ [digitChar (r % 10)])
    exact List.append_assoc _ _ _

/-- The numeric value of the last six characters of `n`'s decimal rendering is
`n % 1000000` (for `n < 10^6` the whole rendering is kept and no padding
occurs, but the value still agrees). -/
theorem digitsToNat_lastN6 (t : Nat) :
    digitsToNat (lastN 6 (decDigits t)) = t % 1000000 := by
  have hpow : (10 : Nat) ^ 6 = 1000000 := by norm_num
  by_cases h : t < 1000000
  · have hlen : (decDigits t).length ≤ 6 :=
      length_decDigits_le 5 t (lt_of_lt_of_eq h hpow.symm)
    have hall : lastN 6 (decDigits t) = decDigits t := by
      simp [lastN, Nat.sub_eq_zero_of_le hlen]
    rw [hall, digitsToNat_decDigits, Nat.mod_eq_of_lt h]
  · push_neg at h
    have hq : 0 < t / 1000000 := Nat.div_pos h (by norm_num)
    have hr : t % 1000000 < 10 ^ 6 := by
      rw [hpow]
      exact Nat.mod_lt t (by norm_num)
    have ht : t / 1000000 * 10 ^ 6 + t % 1000000 = t := by
      rw [hpow]
      omega
    have hsplit : decDigits t = decDigits (t / 1000000) ++ pad 6 (t % 1000000) := by
      conv_lhs => rw [← ht]
      exact decDigits_split 6 (t / 1000000) (t % 1000000) hq hr
    have hlen : (decDigits (t / 1000000) ++ pad 6 (t % 1000000)).length - 6
        = (decDigits (t / 1000000)).length := by
      rw [List.length_append, pad_length]
      omega
    rw [hsplit]
    simp only [lastN]
    rw [hlen, List.drop_left]
    exact digitsToNat_pad 6 (t % 1000000) hr

/-- For a clock value of at least `10^6` the last six characters of its
decimal rendering are exactly the zero-padded rendering of `t % 1000000`;
shorter clock values keep their whole (un-padded) rendering, so this equation
is restricted to `10^6 ≤ t`. -/
theorem lastN6_decDigits (t : Nat) (h : 1000000 ≤ t) :
    lastN 6 (decDigits t) = pad 6 (t % 1000000) := by
  have hpow : (10 : Nat) ^ 6 = 1000000 := by norm_num
  have hq : 0 < t / 1000000 := Nat.div_pos h (by norm_num)
  have hr : t % 1000000 < 10 ^ 6 := by
    rw [hpow]
    exact Nat.mod_lt t (by norm_num)
  have ht : t / 1000000 * 10 ^ 6 + t % 1000000 = t := by
    rw [hpow]
    omega
  have hsplit : decDigits t = decDigits (t / 1000000) ++ pad 6 (t % 1000000) := by
    conv_lhs => rw [← ht]
    exact decDigits_split 6 (t / 1000000) (t % 1000000) hq hr
  have hlen : (decDigits (t / 1000000) ++ pad 6 (t % 1000000)).length - 6
      = (decDigits (t / 1000000)).length := by
    rw [List.length_append, pad_length]
    omega
  rw [hsplit]
  simp only [lastN]
  rw [hlen, List.drop_left]

/-- **C9 (corrected).** `generateOrderId` keys its time component on the last
six characters of the un-padded decimal rendering of the clock value.  For the
same customer: clock values that differ modulo `10^6` always yield distinct
identifiers; and for clock values of at least `10^6` (seven or more decimal
digits, which covers every realistic `Date.now()` reading) the identifiers are
equal exactly when the clock values agree modulo `10^6` — so distinct such
clock values `10^6` milliseconds apart collide (see the counterexample), and
uniqueness across calls within one process lifetime is not guaranteed. -/
theorem claim9 (t1 t2 : Nat) (c : List Char) :
    (t1 % 1000000 ≠ t2 % 1000000 → generateOrderId t1 c ≠ generateOrderId t2 c) ∧
    (1000000 ≤ t1 → 1000000 ≤ t2 →
      (generateOrderId t1 c = generateOrderId t2 c ↔ t1 % 1000000 = t2 % 1000000)) := by
  have key : ∀ s1 s2 : Nat, generateOrderId s1 c = generateOrderId s2 c →
      s1 % 1000000 = s2 % 1000000 := by
    intro s1 s2 heq
    simp only [generateOrderId] at heq
    have h1 : (("ORD-").data ++ lastN 6 (decDigits s1)) ++ ("-").data
        = (("ORD-").data ++ lastN 6 (decDigits s2)) ++ ("-").data :=
      List.append_cancel_right heq
    have h1b : ("ORD-").data ++ lastN 6 (decDigits s1)
        = ("ORD-").data ++ lastN 6 (decDigits s2) :=
      List.append_cancel_right h1
    have h2 : lastN 6 (decDigits s1) = lastN 6 (decDigits s2) :=
      List.append_cancel_left h1b
    have h3 := congrArg digitsToNat h2
    rw [digitsToNat_lastN6 s1, digitsToNat_lastN6 s2] at h3
    exact h3
  refine ⟨fun h heq => h (key t1 t2 heq), fun ha hb => ⟨key t1 t2, fun hmod => ?_⟩⟩
  simp only [generateOrderId]
  rw [lastN6_decDigits t1 ha, lastN6_decDigits t2 hb, hmod]

theorem claim9_witness :
    generateOrderId 1001 (("cust-42").data) ≠ generateOrderId 1002 (("cust-42").data) ∧
    (generateOrderId 1700000000000 (("cust-42").data) =
        generateOrderId 1700001000000 (("cust-42").data) ↔
      (1700000000000 : Nat) % 1000000 = 1700001000000 % 1000000) :=
  ⟨(claim9 1001 1002 (("cust-42").data)).1 (by decide),
    (claim9 1700000000000 1700001000000 (("cust-42").data)).2 (by decide) (by decide)⟩

theorem claim9_cex :
    generateOrderId 1700000000000 (("cust-42").data) =
      generateOrderId 1700001000000 (("cust-42").data) ∧
    (1700000000000 : Nat) ≠ 1700001000000 := by
  constructor
  · have e1 : decDigits 1700000000000 = ("1700000000000").data := by
      simp [decDigits]
      decide
    have e2 : decDigits 1700001000000 = ("1700001000000").data := by
      simp [decDigits]
      decide
    simp only [generateOrderId, e1, e2]
    decide
  · decide

end Coffee
